import Mathlib

/-!
Verification of the RLM-trans translation pipeline (src/v2) against its
natural-language specification.  The Python source is shallowly embedded:
dataclasses become structures, dicts become insertion-ordered association
lists, floats become rationals, fallible indexing becomes Option/Except.
-/

namespace RLMTrans

/-! ## Python dict model: insertion-ordered association lists -/

/-- Lookup of a key in an insertion-ordered association list (Python `d[k]` /
`d.get(k)` on a dict whose keys are unique). -/
def dlookup (k : String) : List (String × String) → Option String
  | [] => none
  | (k', v) :: rest => if k' = k then some v else dlookup k rest

/-- Python `k in d`. -/
def dcontains (k : String) (d : List (String × String)) : Bool :=
  (dlookup k d).isSome

/-- Python `d[k] = v`: update in place if the key exists, else append. -/
def dinsert (k v : String) : List (String × String) → List (String × String)
  | [] => [(k, v)]
  | (k', v') :: rest =>
    if k' = k then (k, v) :: rest else (k', v') :: dinsert k v rest

/-- Python `del d[k]`. -/
def derase (k : String) : List (String × String) → List (String × String)
  | [] => []
  | (k', v') :: rest => if k' = k then rest else (k', v') :: derase k rest

/-! ## TranslationState (src/v2/rlm_state.py) -/

/-- Dataclass `ChunkPlan`. -/
structure ChunkPlan where
  chunks : List (Nat × Nat × String) := []
  current_index : Nat := 0
  overlap : Nat := 0
  strategy : String := "semantic"
  deriving Repr, DecidableEq

/-- Dataclass `TermEntry`; the float `confidence` is modelled as a rational. -/
structure TermEntry where
  source : String
  target : String
  confidence : Rat := 0
  source_chunk_indices : List Int := []
  is_hard : Bool := false
  usage_count : Nat := 0
  deriving Repr, DecidableEq

/-- Dataclass `EntityEntry`. -/
structure EntityEntry where
  name : String
  translation : String
  type : String := "person"
  context : String := ""
  usage_count : Nat := 0
  deriving Repr, DecidableEq

/-- Dataclass `QualityFlags`. -/
structure QualityFlags where
  total_chunks : Nat := 0
  completed_chunks : Nat := 0
  failed_chunks : Nat := 0
  retry_count : List (String × Nat) := []
  error_chunks : List (Int × String × String) := []
  quality_score : Rat := 0
  deriving Repr, DecidableEq

/-- Dataclass `CostStats`; floats modelled as rationals. -/
structure CostStats where
  root_calls : Nat := 0
  sub_calls : Nat := 0
  verifier_calls : Nat := 0
  total_cost : Rat := 0
  total_tokens : Nat := 0
  total_time : Rat := 0
  deriving Repr, DecidableEq

/-- Dataclass `StyleGuide`. -/
structure StyleGuide where
  tone : String := "neutral"
  politeness : String := "default"
  sentence_length : String := "balanced"
  forbidden_words : List String := []
  forbidden_phrases : List String := []
  custom_rules : List String := []
  deriving Repr, DecidableEq

/-- Dataclass `TranslationState`.  Dict fields become association lists;
the `glossary` and `entities` dicts keep their entry structures. -/
structure TranslationState where
  preset_id : String := "general"
  document_type : String := "general"
  chunk_plan : ChunkPlan := {}
  chunk_history : List String := []
  translation_history : List String := []
  glossary : List (String × TermEntry) := []
  entities : List (String × EntityEntry) := []
  term_candidates : List (String × String) := []
  confirmed_terms : List (String × String) := []
  hard_glossary : List (String × String) := []
  soft_glossary : List (String × String) := []
  proper_nouns : List (String × String) := []
  reference_signs : List (String × String) := []
  technical_terms : List (String × String) := []
  style_guide : StyleGuide := {}
  history_summaries : List String := []
  max_history_summaries : Nat := 5
  quality_flags : QualityFlags := {}
  cost_stats : CostStats := {}
  total_chunks : Nat := 0
  completed_chunks : Nat := 0
  current_chunk_index : Nat := 0
  deriving Repr, DecidableEq

/-- The fresh state `TranslationState()` (all dataclass defaults). -/
def initState : TranslationState := {}

/-- `TranslationState.add_chunk`. -/
def add_chunk (s : TranslationState) (chunk_text translation : String) :
    TranslationState :=
  { s with
    chunk_history := s.chunk_history ++ [chunk_text]
    translation_history := s.translation_history ++ [translation]
    current_chunk_index := s.current_chunk_index + 1
    completed_chunks := s.completed_chunks + 1
    quality_flags :=
      { s.quality_flags with
        completed_chunks := s.quality_flags.completed_chunks + 1 } }

/-- `TranslationState.update_chunk`: guarded in-place update of
`translation_history[chunk_index]`; out-of-range indices are ignored. -/
def update_chunk (s : TranslationState) (chunk_index : Int)
    (translation : String) : TranslationState :=
  if 0 ≤ chunk_index ∧ chunk_index.toNat < s.translation_history.length then
    { s with translation_history :=
        s.translation_history.set chunk_index.toNat translation }
  else s

/-- Glossary-dict lookup (Python `self.glossary.get(source)`). -/
def glookup (k : String) : List (String × TermEntry) → Option TermEntry
  | [] => none
  | (k', v) :: rest => if k' = k then some v else glookup k rest

/-- Glossary-dict assignment `self.glossary[source] = term`. -/
def ginsert (k : String) (v : TermEntry) :
    List (String × TermEntry) → List (String × TermEntry)
  | [] => [(k, v)]
  | (k', v') :: rest =>
    if k' = k then (k, v) :: rest else (k', v') :: ginsert k v rest

/-- `TranslationState.add_glossary_entry`.  The existing-entry branch keeps
`is_hard` unchanged and extends the index list only when the supplied list is
non-empty (Python truthiness of `source_chunk_indices`). -/
def add_glossary_entry (s : TranslationState) (source target : String)
    (confidence : Rat := 0) (source_chunk_indices : List Int := [])
    (is_hard : Bool := false) : TranslationState :=
  match glookup source s.glossary with
  | some term =>
    let term' : TermEntry :=
      { term with
        target := target
        confidence := max term.confidence confidence
        source_chunk_indices :=
          if source_chunk_indices ≠ [] then
            term.source_chunk_indices ++ source_chunk_indices
          else term.source_chunk_indices
        usage_count := term.usage_count + 1 }
    { s with glossary := ginsert source term' s.glossary }
  | none =>
    let term' : TermEntry :=
      { source := source, target := target, confidence := confidence,
        source_chunk_indices := source_chunk_indices, is_hard := is_hard }
    { s with glossary := ginsert source term' s.glossary }

/-- `TranslationState.record_error`. -/
def record_error (s : TranslationState) (chunk_index : Int)
    (error_type message : String) : TranslationState :=
  { s with quality_flags :=
      { s.quality_flags with
        error_chunks := s.quality_flags.error_chunks ++
          [(chunk_index, error_type, message)]
        failed_chunks := s.quality_flags.failed_chunks + 1 } }

/-- One step of the `propose_terms` loop body. -/
def propose_one (s : TranslationState) (kv : String × String) :
    TranslationState :=
  if ¬ dcontains kv.1 s.confirmed_terms then
    { s with term_candidates := dinsert kv.1 kv.2 s.term_candidates }
  else s

/-- `TranslationState.propose_terms`: add candidates that are not already
confirmed. -/
def propose_terms (s : TranslationState)
    (term_candidates : List (String × String)) : TranslationState :=
  term_candidates.foldl propose_one s

/-- `TranslationState.update_glossary`: confirm a term (overwriting when
`force`) and drop it from the candidate pool. -/
def update_glossary (s : TranslationState) (source target : String)
    (force : Bool := true) : TranslationState :=
  if force ∨ ¬ dcontains source s.confirmed_terms then
    { s with
      confirmed_terms := dinsert source target s.confirmed_terms
      term_candidates :=
        if dcontains source s.term_candidates then
          derase source s.term_candidates
        else s.term_candidates }
  else s

/-- `TranslationState.add_hard_term`. -/
def add_hard_term (s : TranslationState) (source target : String) :
    TranslationState :=
  { s with
    hard_glossary := dinsert source target s.hard_glossary
    confirmed_terms := dinsert source target s.confirmed_terms }

/-- `TranslationState.add_soft_term`. -/
def add_soft_term (s : TranslationState) (source target : String) :
    TranslationState :=
  { s with soft_glossary := dinsert source target s.soft_glossary }

/-- `TranslationState.add_proper_noun`. -/
def add_proper_noun (s : TranslationState) (source target : String) :
    TranslationState :=
  add_hard_term
    { s with proper_nouns := dinsert source target s.proper_nouns }
    source target

/-- `TranslationState.add_reference_sign`. -/
def add_reference_sign (s : TranslationState) (sign meaning : String) :
    TranslationState :=
  add_hard_term
    { s with reference_signs := dinsert sign meaning s.reference_signs }
    sign meaning

/-- `TranslationState.add_technical_term`. -/
def add_technical_term (s : TranslationState) (source target : String)
    (is_hard : Bool := false) : TranslationState :=
  let s' := { s with technical_terms := dinsert source target s.technical_terms }
  if is_hard then add_hard_term s' source target
  else add_soft_term s' source target

/-- `TranslationState.reset`: clears the listed collections and counters.
Note that the meta counter `total_chunks` is not touched by the Python code. -/
def reset (s : TranslationState) : TranslationState :=
  { s with
    chunk_plan := {}
    chunk_history := []
    translation_history := []
    glossary := []
    entities := []
    history_summaries := []
    quality_flags := {}
    cost_stats := {}
    current_chunk_index := 0
    completed_chunks := 0
    term_candidates := []
    confirmed_terms := []
    hard_glossary := []
    soft_glossary := []
    proper_nouns := []
    reference_signs := []
    technical_terms := [] }

/-! ## Operation language for the state-invariant claims (C4, C5) -/

/-- One `TranslationState` operation, as listed in the invariant claims. -/
inductive Op where
  | addChunk (chunk translation : String)
  | addGlossaryEntry (source target : String) (confidence : Rat)
      (source_chunk_indices : List Int) (is_hard : Bool)
  | proposeTerms (cands : List (String × String))
  | updateGlossary (source target : String) (force : Bool)
  | addHardTerm (source target : String)
  | addSoftTerm (source target : String)
  | addProperNoun (source target : String)
  | addReferenceSign (sign meaning : String)
  | addTechnicalTerm (source target : String) (is_hard : Bool)
  | recordError (chunk_index : Int) (error_type message : String)
  | resetOp
  deriving Repr, DecidableEq

/-- Apply one operation to a state. -/
def applyOp (s : TranslationState) : Op → TranslationState
  | .addChunk c t => add_chunk s c t
  | .addGlossaryEntry src tgt conf idx hard =>
      add_glossary_entry s src tgt conf idx hard
  | .proposeTerms cands => propose_terms s cands
  | .updateGlossary src tgt force => update_glossary s src tgt force
  | .addHardTerm src tgt => add_hard_term s src tgt
  | .addSoftTerm src tgt => add_soft_term s src tgt
  | .addProperNoun src tgt => add_proper_noun s src tgt
  | .addReferenceSign sg mn => add_reference_sign s sg mn
  | .addTechnicalTerm src tgt hard => add_technical_term s src tgt hard
  | .recordError i ty msg => record_error s i ty msg
  | .resetOp => reset s

/-- Run a sequence of operations from a state. -/
def runOps (s : TranslationState) (ops : List Op) : TranslationState :=
  ops.foldl applyOp s

/-- Key-disjointness of `term_candidates` and `confirmed_terms`, as a
decidable check. -/
def disjointTerms (s : TranslationState) : Bool :=
  s.term_candidates.all (fun p => ! dcontains p.1 s.confirmed_terms)

/-- Hard-glossary inclusion: every `hard_glossary` entry is confirmed with the
identical target. -/
def hardSubConfirmed (s : TranslationState) : Bool :=
  s.hard_glossary.all (fun p => dlookup p.1 s.confirmed_terms == some p.2)

/-! ## Association-list lemmas -/

theorem dcontains_iff {k : String} {d : List (String × String)} :
    dcontains k d = true ↔ ∃ p ∈ d, p.1 = k := by
  induction d with
  | nil => simp [dcontains, dlookup]
  | cons q rest ih =>
    rw [dcontains, dlookup]
    by_cases h : q.1 = k
    · rw [if_pos h]
      exact ⟨fun _ => ⟨q, List.mem_cons_self q rest, h⟩, fun _ => rfl⟩
    · rw [if_neg h]
      have hch : (dlookup k rest).isSome = dcontains k rest := rfl
      rw [hch, ih]
      constructor
      · rintro ⟨p, hp, hk⟩
        exact ⟨p, List.mem_cons_of_mem _ hp, hk⟩
      · rintro ⟨p, hp, hk⟩
        rcases List.mem_cons.mp hp with h1 | h2
        · subst h1; exact absurd hk h
        · exact ⟨p, h2, hk⟩

theorem dcontains_of_mem {p : String × String} {d : List (String × String)}
    (h : p ∈ d) : dcontains p.1 d = true :=
  dcontains_iff.mpr ⟨p, h, rfl⟩

theorem dlookup_dinsert_self {k v : String} {d : List (String × String)} :
    dlookup k (dinsert k v d) = some v := by
  induction d with
  | nil => simp [dinsert, dlookup]
  | cons q rest ih =>
    by_cases h : q.1 = k
    · rw [dinsert, if_pos h, dlookup, if_pos rfl]
    · rw [dinsert, if_neg h, dlookup, if_neg h]
      exact ih

theorem dlookup_dinsert_ne {k' k v : String} {d : List (String × String)}
    (h : k' ≠ k) : dlookup k' (dinsert k v d) = dlookup k' d := by
  induction d with
  | nil =>
    rw [dinsert]
    simp only [dlookup]
    rw [if_neg (Ne.symm h)]
  | cons q rest ih =>
    by_cases hq : q.1 = k
    · rw [dinsert, if_pos hq]
      simp only [dlookup]
      rw [if_neg (Ne.symm h), if_neg (by rw [hq]; exact Ne.symm h)]
    · rw [dinsert, if_neg hq]
      simp only [dlookup]
      by_cases hq' : q.1 = k'
      · rw [if_pos hq', if_pos hq']
      · rw [if_neg hq', if_neg hq']
        exact ih

theorem dcontains_dinsert_iff {k' k v : String} {d : List (String × String)} :
    dcontains k' (dinsert k v d) = true ↔ k' = k ∨ dcontains k' d = true := by
  by_cases h : k' = k
  · subst h
    simp [dcontains, dlookup_dinsert_self]
  · simp [dcontains, dlookup_dinsert_ne h, h]

/-- Keys of an association list. -/
def keysOf (d : List (String × String)) : List String := d.map Prod.fst

theorem mem_dinsert {p : String × String} {k v : String}
    {d : List (String × String)} (hnd : (keysOf d).Nodup)
    (h : p ∈ dinsert k v d) : p = (k, v) ∨ (p ∈ d ∧ p.1 ≠ k) := by
  induction d with
  | nil => simp [dinsert] at h; exact Or.inl h
  | cons q rest ih =>
    simp only [keysOf, List.map_cons, List.nodup_cons] at hnd
    by_cases hq : q.1 = k
    · rw [dinsert, if_pos hq] at h
      rcases List.mem_cons.mp h with h1 | h2
      · exact Or.inl h1
      · right
        refine ⟨List.mem_cons_of_mem _ h2, ?_⟩
        intro hk
        apply hnd.1
        rw [hq, ← hk]
        exact List.mem_map_of_mem _ h2
    · rw [dinsert, if_neg hq] at h
      rcases List.mem_cons.mp h with h1 | h2
      · subst h1
        exact Or.inr ⟨List.mem_cons_self _ _, hq⟩
      · rcases ih hnd.2 h2 with h3 | h3
        · exact Or.inl h3
        · exact Or.inr ⟨List.mem_cons_of_mem _ h3.1, h3.2⟩

theorem derase_sublist (k : String) (d : List (String × String)) :
    List.Sublist (derase k d) d := by
  induction d with
  | nil => simp [derase]
  | cons q rest ih =>
    by_cases hq : q.1 = k
    · rw [derase, if_pos hq]
      exact List.Sublist.cons q (List.Sublist.refl rest)
    · rw [derase, if_neg hq]
      exact List.Sublist.cons₂ q ih

theorem mem_derase {p : String × String} {k : String}
    {d : List (String × String)} (hnd : (keysOf d).Nodup)
    (h : p ∈ derase k d) : p ∈ d ∧ p.1 ≠ k := by
  induction d with
  | nil => simp [derase] at h
  | cons q rest ih =>
    simp only [keysOf, List.map_cons, List.nodup_cons] at hnd
    by_cases hq : q.1 = k
    · rw [derase, if_pos hq] at h
      refine ⟨List.mem_cons_of_mem _ h, ?_⟩
      intro hk
      apply hnd.1
      rw [hq, ← hk]
      exact List.mem_map_of_mem _ h
    · rw [derase, if_neg hq] at h
      rcases List.mem_cons.mp h with h1 | h2
      · subst h1; exact ⟨List.mem_cons_self _ _, hq⟩
      · rcases ih hnd.2 h2 with ⟨h3, h4⟩
        exact ⟨List.mem_cons_of_mem _ h3, h4⟩

theorem keysOf_dinsert_nodup {k v : String} {d : List (String × String)}
    (hnd : (keysOf d).Nodup) : (keysOf (dinsert k v d)).Nodup := by
  induction d with
  | nil => simp [dinsert, keysOf]
  | cons q rest ih =>
    simp only [keysOf, List.map_cons, List.nodup_cons] at hnd
    by_cases hq : q.1 = k
    · rw [dinsert, if_pos hq]
      simp only [keysOf, List.map_cons, List.nodup_cons]
      exact ⟨by rw [← hq]; exact hnd.1, hnd.2⟩
    · rw [dinsert, if_neg hq]
      simp only [keysOf, List.map_cons, List.nodup_cons]
      constructor
      · intro hmem
        rcases List.mem_map.mp hmem with ⟨p, hp, hpk⟩
        rcases mem_dinsert hnd.2 hp with h1 | h1
        · rw [h1] at hpk; exact hq hpk.symm
        · apply hnd.1
          rw [← hpk]
          exact List.mem_map_of_mem _ h1.1
      · exact ih hnd.2

theorem keysOf_derase_nodup {k : String} {d : List (String × String)}
    (hnd : (keysOf d).Nodup) : (keysOf (derase k d)).Nodup :=
  List.Nodup.sublist (List.Sublist.map _ (derase_sublist k d)) hnd

theorem dlookup_eq_of_mem {p : String × String} {d : List (String × String)}
    (hnd : (keysOf d).Nodup) (h : p ∈ d) : dlookup p.1 d = some p.2 := by
  induction d with
  | nil => simp at h
  | cons q rest ih =>
    simp only [keysOf, List.map_cons, List.nodup_cons] at hnd
    rcases List.mem_cons.mp h with h1 | h2
    · subst h1
      rw [dlookup, if_pos rfl]
    · have hne : q.1 ≠ p.1 := by
        intro he
        apply hnd.1
        rw [he]
        exact List.mem_map_of_mem _ h2
      rw [dlookup, if_neg hne]
      exact ih hnd.2 h2

/-! ## Invariant preservation for C4 and C5 -/

theorem disjointTerms_iff {s : TranslationState} :
    disjointTerms s = true ↔
      ∀ p ∈ s.term_candidates, dcontains p.1 s.confirmed_terms = false := by
  simp [disjointTerms, List.all_eq_true, Bool.not_eq_true']

theorem hardSubConfirmed_iff {s : TranslationState} :
    hardSubConfirmed s = true ↔
      ∀ p ∈ s.hard_glossary, dlookup p.1 s.confirmed_terms = some p.2 := by
  simp [hardSubConfirmed, List.all_eq_true]

/-- Precondition under which an operation preserves candidate/confirmed
disjointness: the hard-term family must not confirm a pending candidate. -/
def opSafeC4 (s : TranslationState) : Op → Bool
  | .addHardTerm src _ => ! dcontains src s.term_candidates
  | .addProperNoun src _ => ! dcontains src s.term_candidates
  | .addReferenceSign sg _ => ! dcontains sg s.term_candidates
  | .addTechnicalTerm src _ is_hard => ! is_hard || ! dcontains src s.term_candidates
  | _ => true

/-- Precondition under which an operation preserves the hard-glossary
inclusion: `update_glossary` must not contradict an existing hard entry. -/
def opSafeC5 (s : TranslationState) : Op → Bool
  | .updateGlossary src tgt _ =>
      match dlookup src s.hard_glossary with
      | none => true
      | some v => v == tgt
  | _ => true

/-- A trace is C4-safe when every step is, at the state where it executes. -/
def goodOpsC4 : TranslationState → List Op → Bool
  | _, [] => true
  | s, op :: rest => opSafeC4 s op && goodOpsC4 (applyOp s op) rest

/-- A trace is C5-safe when every step is, at the state where it executes. -/
def goodOpsC5 : TranslationState → List Op → Bool
  | _, [] => true
  | s, op :: rest => opSafeC5 s op && goodOpsC5 (applyOp s op) rest

/-- Bundled invariant for C4. -/
def InvC4 (s : TranslationState) : Prop :=
  disjointTerms s = true ∧ (keysOf s.term_candidates).Nodup

/-- Bundled invariant for C5. -/
def InvC5 (s : TranslationState) : Prop :=
  hardSubConfirmed s = true ∧ (keysOf s.hard_glossary).Nodup

theorem add_hard_term_invC4 {s : TranslationState} {src tgt : String}
    (h : InvC4 s) (hsafe : dcontains src s.term_candidates = false) :
    InvC4 (add_hard_term s src tgt) := by
  obtain ⟨hd, hn⟩ := h
  refine ⟨disjointTerms_iff.mpr ?_, hn⟩
  intro p hp
  have hp' : p ∈ s.term_candidates := hp
  have hold := disjointTerms_iff.mp hd p hp'
  show dcontains p.1 (dinsert src tgt s.confirmed_terms) = false
  by_cases hk : p.1 = src
  · have h1 : dcontains src s.term_candidates = true := hk ▸ dcontains_of_mem hp'
    rw [hsafe] at h1
    exact absurd h1 Bool.false_ne_true
  · rw [Bool.eq_false_iff]
    intro hc
    rcases dcontains_dinsert_iff.mp hc with h1 | h1
    · exact hk h1
    · rw [hold] at h1; exact Bool.false_ne_true h1

theorem propose_one_invC4 {s : TranslationState} {kv : String × String}
    (h : InvC4 s) : InvC4 (propose_one s kv) := by
  obtain ⟨hd, hn⟩ := h
  rw [propose_one]
  by_cases hc : dcontains kv.1 s.confirmed_terms = true
  · rw [if_neg (by simp [hc])]
    exact ⟨hd, hn⟩
  · rw [if_pos (by simp [Bool.not_eq_true] at hc ⊢; exact hc)]
    constructor
    · refine disjointTerms_iff.mpr ?_
      intro p hp
      rcases mem_dinsert hn hp with h1 | h1
      · rw [h1]
        exact Bool.not_eq_true _ ▸ (Bool.eq_false_iff.mpr hc)
      · exact disjointTerms_iff.mp hd p h1.1
    · exact keysOf_dinsert_nodup hn

theorem propose_terms_invC4 {s : TranslationState}
    {cands : List (String × String)} (h : InvC4 s) :
    InvC4 (propose_terms s cands) := by
  induction cands generalizing s with
  | nil => exact h
  | cons kv rest ih => exact ih (propose_one_invC4 h)

theorem update_glossary_invC4 {s : TranslationState} {src tgt : String}
    {force : Bool} (h : InvC4 s) : InvC4 (update_glossary s src tgt force) := by
  obtain ⟨hd, hn⟩ := h
  rw [update_glossary]
  by_cases hw : force = true ∨ ¬ dcontains src s.confirmed_terms = true
  · rw [if_pos hw]
    by_cases hc : dcontains src s.term_candidates = true
    · rw [if_pos hc]
      constructor
      · refine disjointTerms_iff.mpr ?_
        intro p hp
        rcases mem_derase hn hp with ⟨hp', hk⟩
        rw [Bool.eq_false_iff]
        intro hcc
        rcases dcontains_dinsert_iff.mp hcc with h1 | h1
        · exact hk h1
        · rw [disjointTerms_iff.mp hd p hp'] at h1
          exact Bool.false_ne_true h1
      · exact keysOf_derase_nodup hn
    · rw [if_neg hc]
      constructor
      · refine disjointTerms_iff.mpr ?_
        intro p hp
        rw [Bool.eq_false_iff]
        intro hcc
        rcases dcontains_dinsert_iff.mp hcc with h1 | h1
        · exact hc (h1 ▸ dcontains_of_mem hp)
        · rw [disjointTerms_iff.mp hd p hp] at h1
          exact Bool.false_ne_true h1
      · exact hn
  · rw [if_neg hw]
    exact ⟨hd, hn⟩

theorem applyOp_invC4 {s : TranslationState} {op : Op} (h : InvC4 s)
    (hsafe : opSafeC4 s op = true) : InvC4 (applyOp s op) := by
  obtain ⟨hd, hn⟩ := h
  cases op with
  | addChunk c t => exact ⟨hd, hn⟩
  | addGlossaryEntry src tgt conf idx hard =>
    show InvC4 (add_glossary_entry s src tgt conf idx hard)
    rw [add_glossary_entry]
    cases glookup src s.glossary with
    | some term => exact ⟨hd, hn⟩
    | none => exact ⟨hd, hn⟩
  | proposeTerms cands => exact propose_terms_invC4 ⟨hd, hn⟩
  | updateGlossary src tgt force => exact update_glossary_invC4 ⟨hd, hn⟩
  | addHardTerm src tgt =>
    exact add_hard_term_invC4 ⟨hd, hn⟩ (by simpa [opSafeC4] using hsafe)
  | addSoftTerm src tgt => exact ⟨hd, hn⟩
  | addProperNoun src tgt =>
    exact add_hard_term_invC4 (s := { s with
      proper_nouns := dinsert src tgt s.proper_nouns })
      ⟨hd, hn⟩ (by simpa [opSafeC4] using hsafe)
  | addReferenceSign sg mn =>
    exact add_hard_term_invC4 (s := { s with
      reference_signs := dinsert sg mn s.reference_signs })
      ⟨hd, hn⟩ (by simpa [opSafeC4] using hsafe)
  | addTechnicalTerm src tgt hard =>
    show InvC4 (add_technical_term s src tgt hard)
    rw [add_technical_term]
    cases hard with
    | false => exact ⟨hd, hn⟩
    | true =>
      simp only [if_pos]
      refine add_hard_term_invC4 ⟨hd, hn⟩ ?_
      simpa [opSafeC4] using hsafe
  | recordError i ty msg => exact ⟨hd, hn⟩
  | resetOp =>
    refine ⟨disjointTerms_iff.mpr ?_, List.nodup_nil⟩
    intro p hp
    simp [applyOp, reset] at hp

theorem runOps_invC4 {s : TranslationState} {ops : List Op} (h : InvC4 s)
    (hgood : goodOpsC4 s ops = true) : InvC4 (runOps s ops) := by
  induction ops generalizing s with
  | nil => exact h
  | cons op rest ih =>
    rw [goodOpsC4, Bool.and_eq_true] at hgood
    exact ih (applyOp_invC4 h hgood.1) hgood.2

theorem propose_one_fields (s : TranslationState) (kv : String × String) :
    (propose_one s kv).confirmed_terms = s.confirmed_terms ∧
      (propose_one s kv).hard_glossary = s.hard_glossary := by
  rw [propose_one]
  by_cases hc : ¬ dcontains kv.1 s.confirmed_terms = true
  · rw [if_pos hc]
    exact ⟨rfl, rfl⟩
  · rw [if_neg hc]
    exact ⟨rfl, rfl⟩

theorem propose_terms_fields (s : TranslationState)
    (cands : List (String × String)) :
    (propose_terms s cands).confirmed_terms = s.confirmed_terms ∧
      (propose_terms s cands).hard_glossary = s.hard_glossary := by
  induction cands generalizing s with
  | nil => exact ⟨rfl, rfl⟩
  | cons kv rest ih =>
    have h1 := propose_one_fields s kv
    have h2 := ih (propose_one s kv)
    exact ⟨h2.1.trans h1.1, h2.2.trans h1.2⟩

theorem add_hard_term_invC5 {s : TranslationState} {src tgt : String}
    (h : InvC5 s) : InvC5 (add_hard_term s src tgt) := by
  obtain ⟨hd, hn⟩ := h
  constructor
  · refine hardSubConfirmed_iff.mpr ?_
    intro p hp
    have hp' : p ∈ dinsert src tgt s.hard_glossary := hp
    show dlookup p.1 (dinsert src tgt s.confirmed_terms) = some p.2
    rcases mem_dinsert hn hp' with h1 | h1
    · rw [h1]
      exact dlookup_dinsert_self
    · rw [dlookup_dinsert_ne h1.2]
      exact hardSubConfirmed_iff.mp hd p h1.1
  · exact keysOf_dinsert_nodup hn

theorem update_glossary_invC5 {s : TranslationState} {src tgt : String}
    {force : Bool} (h : InvC5 s)
    (hsafe : ∀ v, dlookup src s.hard_glossary = some v → v = tgt) :
    InvC5 (update_glossary s src tgt force) := by
  obtain ⟨hd, hn⟩ := h
  rw [update_glossary]
  by_cases hw : force = true ∨ ¬ dcontains src s.confirmed_terms = true
  · rw [if_pos hw]
    refine ⟨hardSubConfirmed_iff.mpr ?_, hn⟩
    intro p hp
    have hp' : p ∈ s.hard_glossary := hp
    show dlookup p.1 (dinsert src tgt s.confirmed_terms) = some p.2
    by_cases hk : p.1 = src
    · have hlk : dlookup p.1 s.hard_glossary = some p.2 := dlookup_eq_of_mem hn hp'
      have hv : p.2 = tgt := hsafe p.2 (hk ▸ hlk)
      rw [hk, hv]
      exact dlookup_dinsert_self
    · rw [dlookup_dinsert_ne hk]
      exact hardSubConfirmed_iff.mp hd p hp'
  · rw [if_neg hw]
    exact ⟨hd, hn⟩

theorem applyOp_invC5 {s : TranslationState} {op : Op} (h : InvC5 s)
    (hsafe : opSafeC5 s op = true) : InvC5 (applyOp s op) := by
  obtain ⟨hd, hn⟩ := h
  cases op with
  | addChunk c t => exact ⟨hd, hn⟩
  | addGlossaryEntry src tgt conf idx hard =>
    show InvC5 (add_glossary_entry s src tgt conf idx hard)
    rw [add_glossary_entry]
    cases glookup src s.glossary with
    | some term => exact ⟨hd, hn⟩
    | none => exact ⟨hd, hn⟩
  | proposeTerms cands =>
    have hf := propose_terms_fields s cands
    show InvC5 (propose_terms s cands)
    constructor
    · rw [hardSubConfirmed, hf.1, hf.2]
      exact hd
    · show (keysOf (propose_terms s cands).hard_glossary).Nodup
      rw [hf.2]
      exact hn
  | updateGlossary src tgt force =>
    refine update_glossary_invC5 ⟨hd, hn⟩ ?_
    intro v hv
    rw [opSafeC5, hv, beq_iff_eq] at hsafe
    exact hsafe
  | addHardTerm src tgt => exact add_hard_term_invC5 ⟨hd, hn⟩
  | addSoftTerm src tgt => exact ⟨hd, hn⟩
  | addProperNoun src tgt =>
    exact add_hard_term_invC5 (s := { s with
      proper_nouns := dinsert src tgt s.proper_nouns }) ⟨hd, hn⟩
  | addReferenceSign sg mn =>
    exact add_hard_term_invC5 (s := { s with
      reference_signs := dinsert sg mn s.reference_signs }) ⟨hd, hn⟩
  | addTechnicalTerm src tgt hard =>
    show InvC5 (add_technical_term s src tgt hard)
    rw [add_technical_term]
    cases hard with
    | false => exact ⟨hd, hn⟩
    | true =>
      simp only [if_pos]
      exact add_hard_term_invC5 ⟨hd, hn⟩
  | recordError i ty msg => exact ⟨hd, hn⟩
  | resetOp =>
    refine ⟨hardSubConfirmed_iff.mpr ?_, List.nodup_nil⟩
    intro p hp
    simp [applyOp, reset] at hp

theorem runOps_invC5 {s : TranslationState} {ops : List Op} (h : InvC5 s)
    (hgood : goodOpsC5 s ops = true) : InvC5 (runOps s ops) := by
  induction ops generalizing s with
  | nil => exact h
  | cons op rest ih =>
    rw [goodOpsC5, Bool.and_eq_true] at hgood
    exact ih (applyOp_invC5 h hgood.1) hgood.2

/-! ## Claim C4 -/

/-- Counterexample trace for C4: propose a candidate, then confirm the same
source through `add_hard_term`. -/
def c4BadOps : List Op :=
  [Op.proposeTerms [("a", "x")], Op.addHardTerm "a" "y"]

/-- Claim C4, as stated, is false: after `propose_terms({"a": "x"})` followed
by `add_hard_term("a", "y")` the key `"a"` is simultaneously a key of
`term_candidates` and of `confirmed_terms`, because `add_hard_term` does not
remove its source from the candidate pool. -/
theorem C4_counterexample :
    disjointTerms (runOps initState c4BadOps) = false ∧
      dcontains "a" (runOps initState c4BadOps).term_candidates = true ∧
      dcontains "a" (runOps initState c4BadOps).confirmed_terms = true := by
  refine ⟨?_, ?_, ?_⟩ <;> rfl

/-- Claim C4 (amended): for every sequence of operations applied to a fresh
state, the key sets of `term_candidates` and `confirmed_terms` stay disjoint,
provided `add_hard_term` (also via `add_proper_noun`, `add_reference_sign`,
and `add_technical_term` with `is_hard=True`) is never invoked with a source
that is currently a candidate key. -/
theorem C4_term_sets_disjoint (ops : List Op)
    (hgood : goodOpsC4 initState ops = true) :
    disjointTerms (runOps initState ops) = true := by
  have hinit : InvC4 initState := ⟨by rfl, List.nodup_nil⟩
  exact (runOps_invC4 hinit hgood).1

/-- Safe trace witnessing C4's amended statement. -/
def c4GoodOps : List Op :=
  [Op.proposeTerms [("a", "x"), ("b", "y")], Op.updateGlossary "a" "z" true,
   Op.addHardTerm "c" "w", Op.addTechnicalTerm "b" "v" false, Op.resetOp,
   Op.proposeTerms [("d", "u")]]

/-- Witness: the amended C4 theorem applied to a concrete safe trace. -/
theorem C4_term_sets_disjoint_witness :
    goodOpsC4 initState c4GoodOps = true ∧
      disjointTerms (runOps initState c4GoodOps) = true :=
  ⟨by rfl, C4_term_sets_disjoint c4GoodOps (by rfl)⟩

/-! ## Claim C5 -/

/-- Counterexample trace for C5: make a hard term, then force-overwrite its
confirmed mapping with a different target. -/
def c5BadOps : List Op :=
  [Op.addHardTerm "a" "x", Op.updateGlossary "a" "y" true]

/-- Claim C5, as stated, is false: after `add_hard_term("a", "x")` followed by
`update_glossary("a", "y", force=True)`, `hard_glossary["a"] = "x"` while
`confirmed_terms["a"] = "y"`. -/
theorem C5_counterexample :
    hardSubConfirmed (runOps initState c5BadOps) = false ∧
      dlookup "a" (runOps initState c5BadOps).hard_glossary = some "x" ∧
      dlookup "a" (runOps initState c5BadOps).confirmed_terms = some "y" := by
  refine ⟨?_, ?_, ?_⟩ <;> rfl

/-- Claim C5 (amended): for every sequence of operations applied to a fresh
state, every `hard_glossary` entry is present in `confirmed_terms` with the
identical target, provided `update_glossary` is never invoked with a target
that differs from an existing `hard_glossary` entry for the same source. -/
theorem C5_hard_glossary_confirmed (ops : List Op)
    (hgood : goodOpsC5 initState ops = true) :
    hardSubConfirmed (runOps initState ops) = true := by
  have hinit : InvC5 initState := ⟨by rfl, List.nodup_nil⟩
  exact (runOps_invC5 hinit hgood).1

/-- Safe trace witnessing C5's amended statement. -/
def c5GoodOps : List Op :=
  [Op.addHardTerm "a" "x", Op.updateGlossary "a" "x" true,
   Op.addProperNoun "b" "y", Op.updateGlossary "c" "z" false,
   Op.addReferenceSign "100" "controller", Op.resetOp,
   Op.addTechnicalTerm "d" "w" true]

/-- Witness: the amended C5 theorem applied to a concrete safe trace. -/
theorem C5_hard_glossary_confirmed_witness :
    goodOpsC5 initState c5GoodOps = true ∧
      hardSubConfirmed (runOps initState c5GoodOps) = true :=
  ⟨by rfl, C5_hard_glossary_confirmed c5GoodOps (by rfl)⟩

/-! ## Claim C9 -/

/-- Claim C9 (amended): `reset()` empties every listed collection and zeroes
every listed counter except the meta counter `total_chunks`, which keeps its
previous value. -/
theorem C9_reset_state (s : TranslationState) :
    (reset s).chunk_history = [] ∧
    (reset s).translation_history = [] ∧
    (reset s).glossary = [] ∧
    (reset s).entities = [] ∧
    (reset s).history_summaries = [] ∧
    (reset s).term_candidates = [] ∧
    (reset s).confirmed_terms = [] ∧
    (reset s).hard_glossary = [] ∧
    (reset s).soft_glossary = [] ∧
    (reset s).proper_nouns = [] ∧
    (reset s).reference_signs = [] ∧
    (reset s).technical_terms = [] ∧
    (reset s).quality_flags.error_chunks = [] ∧
    (reset s).quality_flags.retry_count = [] ∧
    (reset s).quality_flags.total_chunks = 0 ∧
    (reset s).quality_flags.completed_chunks = 0 ∧
    (reset s).quality_flags.failed_chunks = 0 ∧
    (reset s).completed_chunks = 0 ∧
    (reset s).current_chunk_index = 0 ∧
    (reset s).cost_stats.root_calls = 0 ∧
    (reset s).cost_stats.sub_calls = 0 ∧
    (reset s).cost_stats.verifier_calls = 0 ∧
    (reset s).cost_stats.total_cost = 0 ∧
    (reset s).cost_stats.total_tokens = 0 ∧
    (reset s).cost_stats.total_time = 0 ∧
    (reset s).total_chunks = s.total_chunks := by
  refine ⟨rfl, rfl, rfl, rfl, rfl, rfl, rfl, rfl, rfl, rfl, rfl, rfl, rfl,
    rfl, rfl, rfl, rfl, rfl, rfl, rfl, rfl, rfl, rfl, rfl, rfl, rfl⟩

/-- A state as the orchestrator builds it: `set_text` assigns
`state.total_chunks = len(chunks)`. -/
def c9State : TranslationState := { initState with total_chunks := 5 }

/-- Claim C9, as stated, is false: `reset()` does not zero the meta counter
`total_chunks` (it only zeroes `quality_flags.total_chunks`). -/
theorem C9_counterexample : (reset c9State).total_chunks ≠ 0 := by
  decide

/-! ## Claim C10 -/

/-- Claim C10: `update_chunk(i, t)` never raises; in range it replaces
`translation_history[i]` and leaves every other field unchanged; out of range
it leaves the whole state unchanged. -/
theorem C10_update_chunk_frame (s : TranslationState) (i : Int) (t : String) :
    ((update_chunk s i t).chunk_history = s.chunk_history ∧
     (update_chunk s i t).glossary = s.glossary ∧
     (update_chunk s i t).entities = s.entities ∧
     (update_chunk s i t).term_candidates = s.term_candidates ∧
     (update_chunk s i t).confirmed_terms = s.confirmed_terms ∧
     (update_chunk s i t).hard_glossary = s.hard_glossary ∧
     (update_chunk s i t).soft_glossary = s.soft_glossary ∧
     (update_chunk s i t).proper_nouns = s.proper_nouns ∧
     (update_chunk s i t).reference_signs = s.reference_signs ∧
     (update_chunk s i t).technical_terms = s.technical_terms ∧
     (update_chunk s i t).style_guide = s.style_guide ∧
     (update_chunk s i t).history_summaries = s.history_summaries ∧
     (update_chunk s i t).quality_flags = s.quality_flags ∧
     (update_chunk s i t).cost_stats = s.cost_stats ∧
     (update_chunk s i t).chunk_plan = s.chunk_plan ∧
     (update_chunk s i t).preset_id = s.preset_id ∧
     (update_chunk s i t).document_type = s.document_type ∧
     (update_chunk s i t).total_chunks = s.total_chunks ∧
     (update_chunk s i t).completed_chunks = s.completed_chunks ∧
     (update_chunk s i t).current_chunk_index = s.current_chunk_index) ∧
    (0 ≤ i ∧ i.toNat < s.translation_history.length →
      (update_chunk s i t).translation_history =
        s.translation_history.set i.toNat t) ∧
    (¬ (0 ≤ i ∧ i.toNat < s.translation_history.length) →
      update_chunk s i t = s) := by
  by_cases h : 0 ≤ i ∧ i.toNat < s.translation_history.length
  · rw [update_chunk, if_pos h]
    exact ⟨⟨rfl, rfl, rfl, rfl, rfl, rfl, rfl, rfl, rfl, rfl, rfl, rfl, rfl,
      rfl, rfl, rfl, rfl, rfl, rfl, rfl⟩, fun _ => rfl, fun hc => absurd h hc⟩
  · rw [update_chunk, if_neg h]
    exact ⟨⟨rfl, rfl, rfl, rfl, rfl, rfl, rfl, rfl, rfl, rfl, rfl, rfl, rfl,
      rfl, rfl, rfl, rfl, rfl, rfl, rfl⟩, fun hc => absurd hc h, fun _ => rfl⟩

/-- State with two committed chunks, for the C10 witness. -/
def c10State : TranslationState :=
  add_chunk (add_chunk initState "a" "x") "b" "y"

/-- Witness: C10 applied at an in-range and an out-of-range index. -/
theorem C10_update_chunk_frame_witness :
    (update_chunk c10State 1 "z").translation_history =
      c10State.translation_history.set (Int.toNat 1) "z" ∧
    update_chunk c10State (-1) "q" = c10State :=
  ⟨(C10_update_chunk_frame c10State 1 "z").2.1 (by decide),
   (C10_update_chunk_frame c10State (-1) "q").2.2 (by decide)⟩

/-! ## Python string primitives (shared by the verifier, chunker and parser) -/

/-- Characters treated as whitespace by Python `str.strip` / `str.isspace`
(ASCII range). -/
def isPySpace (c : Char) : Bool :=
  c = ' ' || c = '\t' || c = '\n' || c = '\r' ||
    c = Char.ofNat 11 || c = Char.ofNat 12

/-- Python `str.lstrip()`. -/
def pyLstrip (l : List Char) : List Char := l.dropWhile isPySpace

/-- Python `str.rstrip()`. -/
def pyRstrip (l : List Char) : List Char :=
  (l.reverse.dropWhile isPySpace).reverse

/-- Python `str.strip()`. -/
def pyStrip (l : List Char) : List Char := pyRstrip (pyLstrip l)

/-- Python `str.lower()` (ASCII model). -/
def pyLower (l : List Char) : List Char := l.map Char.toLower

/-- Python `needle in hay` on strings: contiguous substring test. -/
def pyIn (needle hay : List Char) : Bool := decide (needle <:+: hay)

/-- Python `s.endswith(suf)`. -/
def pyEndsWith (l suf : List Char) : Bool := decide (suf <:+ l)

/-- Python `s.split(sep)` for a one-character separator, via an accumulator
for the piece being read. -/
def pySplitChAux (sep : Char) : List Char → List Char → List (List Char)
  | [], acc => [acc.reverse]
  | c :: rest, acc =>
    if c = sep then acc.reverse :: pySplitChAux sep rest []
    else pySplitChAux sep rest (c :: acc)

/-- Python `s.split(sep)` for a one-character separator. -/
def pySplitCh (sep : Char) (l : List Char) : List (List Char) :=
  pySplitChAux sep l []

/-- Python `s.split()` (no argument): split on whitespace runs, no empties. -/
def pySplitWsAux : List Char → List Char → List (List Char)
  | [], acc => if acc = [] then [] else [acc.reverse]
  | c :: rest, acc =>
    if isPySpace c then
      if acc = [] then pySplitWsAux rest []
      else acc.reverse :: pySplitWsAux rest []
    else pySplitWsAux rest (c :: acc)

/-- Python `s.split()` (no argument). -/
def pySplitWs (l : List Char) : List (List Char) := pySplitWsAux l []

/-- Python `s.isdigit()` (ASCII model): non-empty and all digits. -/
def pyIsdigit (l : List Char) : Bool := l ≠ [] && l.all Char.isDigit

/-! ## Verifier (src/v2/verifier.py) -/

/-- One entry of `ValidationResult.errors` (a dict with type, message and
severity; enum values are stored as their strings). -/
structure VError where
  type : String
  message : String
  severity : String
  deriving Repr, DecidableEq

/-- One entry of `ValidationResult.warnings`. -/
structure VWarning where
  type : String
  message : String
  deriving Repr, DecidableEq

/-- Class `ValidationResult`. -/
structure ValidationResult where
  valid : Bool := true
  errors : List VError := []
  warnings : List VWarning := []
  repair_type : Option String := none
  repair_description : Option String := none
  deriving Repr, DecidableEq

/-- `ValidationResult.add_error` (always flips `valid` to `False`). -/
def add_error (r : ValidationResult) (error_type message : String)
    (severity : String := "hard") : ValidationResult :=
  { r with
    errors := r.errors ++ [⟨error_type, message, severity⟩]
    valid := false }

/-- `ValidationResult.add_warning`. -/
def add_warning (r : ValidationResult) (warning_type message : String) :
    ValidationResult :=
  { r with warnings := r.warnings ++ [⟨warning_type, message⟩] }

/-- `ValidationResult.set_repair`. -/
def set_repair (r : ValidationResult) (repair_type description : String) :
    ValidationResult :=
  { r with
    repair_type := some repair_type
    repair_description := some description }

/-- `ValidationResult.is_hard_error`. -/
def is_hard_error (r : ValidationResult) : Bool :=
  r.errors.any (fun e => e.severity == "hard")

/-- `ValidationResult.get_hard_error_types`. -/
def get_hard_error_types (r : ValidationResult) : List String :=
  (r.errors.filter (fun e => e.severity == "hard")).map (fun e => e.type)

/-- The `style` sub-dict a context may carry (`tone`, `forbidden_words`). -/
structure StyleCtx where
  tone : String := "neutral"
  forbidden_words : List String := []
  deriving Repr, DecidableEq

/-- The `local_context` sub-dict built by `_build_local_context`. -/
structure LocalCtx where
  recent_translations : List String := []
  recent_originals : List String := []
  context_summaries : List String := []
  entity_translations : List (String × String) := []
  deriving Repr, DecidableEq

/-- The context dict: keys become optional fields (a `none` models an absent
key).  `get_context_package` fills the glossary tiers and `style_guide`;
`build_context_package` adds `rules`, `local_context`, `chunk`,
`chunk_index` and `document_type`.  The keys `style` and `glossary` that the
verifier reads are never written by either builder. -/
structure ContextPackage where
  style : Option StyleCtx := none
  glossary : Option (List (String × String)) := none
  hard_glossary : List (String × String) := []
  soft_glossary : List (String × String) := []
  proper_nouns : List (String × String) := []
  reference_signs : List (String × String) := []
  technical_terms : List (String × String) := []
  confirmed_terms : List (String × String) := []
  style_guide : Option StyleCtx := none
  history_summaries : List String := []
  rules : Option (List String) := none
  local_context : Option LocalCtx := none
  chunk : Option String := none
  chunk_index : Option Nat := none
  document_type : Option String := none
  deriving Repr, DecidableEq

/-- `Verifier._validate_subtitle_format`: the only error fires when the
line list is empty, which `str.split` never produces. -/
def validate_subtitle_format (r : ValidationResult) (translation : List Char)
    (_context : ContextPackage) : ValidationResult :=
  let lines := pySplitCh '\n' (pyStrip translation)
  if lines.length = 0 then
    add_error r "format" "Subtitle has no lines" "hard"
  else r

/-- `Verifier._validate_patent_format` (warnings only). -/
def validate_patent_format (r : ValidationResult) (translation : List Char)
    (_context : ContextPackage) : ValidationResult :=
  let r1 :=
    if ¬ (pySplitWs translation).any pyIsdigit then
      add_warning r "structure"
        "No claim numbers found (typical in patent translations)"
    else r
  if ¬ pyIn "wherein".data (pyLower translation) then
    add_warning r1 "structure" "Missing wherein clause marker (optional)"
  else r1

/-- `Verifier._validate_paper_format` (warnings only). -/
def validate_paper_format (r : ValidationResult) (translation : List Char)
    (_context : ContextPackage) : ValidationResult :=
  if (translation.filter (fun c => c = '.')).length < 3 then
    add_warning r "structure" "Paper may lack sufficient sentence structure"
  else r

/-- `Verifier._check_forbidden_content`: reads `context.get("style", {})`,
which neither context builder ever writes. -/
def check_forbidden_content (r : ValidationResult) (translation : List Char)
    (context : ContextPackage) : ValidationResult :=
  let forbidden_words := (context.style.map StyleCtx.forbidden_words).getD []
  forbidden_words.foldl
    (fun acc word =>
      if pyIn (pyLower word.data) (pyLower translation) then
        add_error acc "forbidden" ("Contains forbidden word: " ++ word) "hard"
      else acc)
    r

/-- First half of `Verifier._check_length_constraints`: the 3x warning. -/
def clc_warn_long (r : ValidationResult) (translation original : List Char) :
    ValidationResult :=
  if translation.length > original.length * 3 then
    add_warning r "completion"
      "Translation is significantly longer than original (more than 3x)"
  else r

/-- `Verifier._check_length_constraints`. -/
def check_length_constraints (r : ValidationResult)
    (translation original : List Char) : ValidationResult :=
  if translation.length = 0 then
    add_error (clc_warn_long r translation original) "completion"
      "Translation is empty despite original having content" "hard"
  else clc_warn_long r translation original

/-- `Verifier._check_terminology`: reads `context.get("glossary", {})`,
which neither context builder ever writes; a zero `str.count` is the same as
the absence of the substring. -/
def check_terminology (r : ValidationResult) (translation : List Char)
    (context : ContextPackage) : ValidationResult :=
  match context.glossary with
  | none => r
  | some glossary =>
    if glossary = [] then r
    else
      ((glossary.map Prod.fst).take 10).foldl
        (fun acc term =>
          if ¬ pyIn (pyLower term.data) (pyLower translation) then
            add_warning acc "terminology"
              ("Glossary term " ++ term ++ " not found in translation")
          else acc)
        r

/-- The sentence-ending suffixes checked by `_rule_based_validation`. -/
def sentenceEndings : List (List Char) :=
  [".".data, "!".data, "?".data, "。".data, "！".data, "？".data,
   "다.".data, "요.".data, "니다.".data]

/-- `Verifier._rule_based_validation`, step 2: truncation check. -/
def check_truncation (r : ValidationResult) (translation : List Char) :
    ValidationResult :=
  if pyEndsWith (pyRstrip translation) "...".data ∨
      pyEndsWith (pyRstrip translation) "…".data then
    add_error r "completion"
      "Translation appears truncated (ends with ...)" "hard"
  else r

/-- `Verifier._rule_based_validation`, step 3: sentence-completion check. -/
def check_sentence_completion (r : ValidationResult) (translation : List Char)
    (check_sentence : Bool) : ValidationResult :=
  if check_sentence then
    if ¬ (sentenceEndings.any (fun e => pyEndsWith (pyRstrip translation) e)) ∧
        (pyRstrip translation).length > 50 then
      add_error r "completion"
        "Translation does not end with complete sentence" "hard"
    else r
  else r

/-- `Verifier._rule_based_validation`, step 4: length-ratio check (the float
literal `0.5` is the exact rational one half). -/
def check_length_ratio (r : ValidationResult)
    (translation original_chunk : List Char) (check_length : Bool) :
    ValidationResult :=
  if check_length then
    if (pyStrip original_chunk).length > 100 ∧
        ((pyStrip translation).length : ℚ) <
          ((pyStrip original_chunk).length : ℚ) * (1 / 2 : ℚ) then
      add_error r "completion"
        ("Translation too short (less than half of original)") "hard"
    else r
  else r

/-- `Verifier._rule_based_validation`, step 5: preset-specific format rules. -/
def check_preset_format (r : ValidationResult) (translation : List Char)
    (context : ContextPackage) (preset_type : String) : ValidationResult :=
  if preset_type = "subtitle" then validate_subtitle_format r translation context
  else if preset_type = "patent" then validate_patent_format r translation context
  else if preset_type = "paper" then validate_paper_format r translation context
  else r

/-- `Verifier._rule_based_validation`: empty check with early return, then the
fixed sequence of rule checks. -/
def rule_based_validation (r : ValidationResult) (translation : List Char)
    (original_chunk : List Char) (context : ContextPackage)
    (preset_type : String) (check_sentence check_length : Bool) :
    ValidationResult :=
  if pyStrip translation = [] then
    add_error r "completion" "Translation is empty" "hard"
  else
    let r1 := check_truncation r translation
    let r2 := check_sentence_completion r1 translation check_sentence
    let r3 := check_length_ratio r2 translation original_chunk check_length
    let r4 := check_preset_format r3 translation context preset_type
    let r5 := check_forbidden_content r4 translation context
    let r6 := check_length_constraints r5 translation original_chunk
    check_terminology r6 translation context

/-- `Verifier._llm_validation` (placeholder: can only add one warning). -/
def llm_validation (r : ValidationResult) : ValidationResult :=
  if ¬ r.valid ∧ r.warnings = [] then
    add_warning r "tone"
      "No specific quality issues detected, but could benefit from LLM validation"
  else r

/-- `Verifier._determine_repair`. -/
def determine_repair (r : ValidationResult) : ValidationResult :=
  let hard_errors := get_hard_error_types r
  if hard_errors = [] then r
  else if hard_errors.contains "forbidden" then
    set_repair r "template_reinforce" "Remove forbidden content and re-translate"
  else if hard_errors.contains "format" then
    set_repair r "template_reinforce" "Fix formatting errors and re-translate"
  else if hard_errors.contains "completion" then
    set_repair r "re_translate" "Re-translate the chunk completely"
  else
    set_repair r "re_translate" "Re-translate with corrections"

/-- The optional LLM step of `Verifier.validate`. -/
def validate_llm_step (enable_llm_validation : Bool) (r : ValidationResult) :
    ValidationResult :=
  if ¬ r.valid ∧ enable_llm_validation then llm_validation r else r

/-- The final repair-determination step of `Verifier.validate`. -/
def validate_repair_step (r : ValidationResult) : ValidationResult :=
  if ¬ r.valid then determine_repair r else r

/-- `Verifier.validate`. -/
def validate (enable_llm_validation : Bool) (translation : List Char)
    (original_chunk : List Char) (context : ContextPackage)
    (preset_type : String := "general") (check_sentence : Bool := true)
    (check_length : Bool := true) : ValidationResult :=
  validate_repair_step (validate_llm_step enable_llm_validation
    (rule_based_validation {} translation original_chunk context
      preset_type check_sentence check_length))

/-! ## Context package builder (src/v2/context_package.py, rlm_state.py) -/

/-- `TranslationState.get_context_package`: the style guide is exported under
the key `style_guide` and carries only `tone` and `forbidden_words`;
`forbidden_phrases` is not included. -/
def get_context_package (s : TranslationState) : ContextPackage :=
  { hard_glossary := s.hard_glossary
    soft_glossary := s.soft_glossary
    proper_nouns := s.proper_nouns
    reference_signs := s.reference_signs
    technical_terms := s.technical_terms
    confirmed_terms := s.confirmed_terms
    style_guide := some
      { tone := s.style_guide.tone
        forbidden_words := s.style_guide.forbidden_words }
    history_summaries := s.history_summaries.reverse.take 3 |>.reverse }

/-- `_build_rules`. -/
def build_rules (preset_type : String) : List String :=
  let rules := ["Translate preserving meaning and intent",
    "Use natural expressions in target language",
    "Maintain consistent terminology throughout"]
  if preset_type = "subtitle" then
    rules ++ ["Keep translations SHORT and natural for spoken dialogue",
      "Match timing constraints of subtitles",
      "Use colloquial expressions appropriate for speech",
      "Avoid overly formal language",
      "Keep line breaks where they make sense for readability"]
  else if preset_type = "patent" then
    rules ++ ["Use EXACT legal terminology - precision is critical",
      "Maintain claim structure and numbering",
      "Preserve all technical specifications exactly",
      "Keep patent-specific phrases (comprising, wherein)",
      "Do not paraphrase - translate literally as appropriate",
      "Maintain reference numbers and figure references"]
  else if preset_type = "paper" then
    rules ++ ["Use precise academic terminology",
      "Maintain formal, objective tone",
      "Preserve technical terms (transliterate if no standard translation)",
      "Keep citation formats intact",
      "Translate figure/table captions accurately",
      "Maintain logical flow and argumentation structure"]
  else if preset_type = "novel" then
    rules ++ ["Preserve authors unique voice and style",
      "Maintain narrative flow and pacing",
      "Translate idioms naturally, not literally",
      "Keep character voice distinctions",
      "Preserve metaphors and literary devices when possible",
      "Adapt cultural references appropriately",
      "Maintain emotional impact and atmosphere"]
  else if preset_type = "technical" then
    rules ++ ["Use clear, unambiguous language",
      "Maintain consistent terminology",
      "Preserve code snippets and commands exactly",
      "Keep formatting (lists, headings, tables)",
      "Translate UI text according to localization standards",
      "Keep placeholder text unchanged"]
  else rules

/-- `TranslationState.get_entity_translations`: entities sorted by usage count
descending (stable, as CPython `sorted(reverse=True)`), top `top_n`. -/
def get_entity_translations (s : TranslationState) (top_n : Nat := 100) :
    List (String × String) :=
  ((s.entities.mergeSort
      (fun a b => b.2.usage_count ≤ a.2.usage_count)).take top_n).map
    (fun p => (p.1, p.2.translation))

/-- `_build_local_context`. -/
def build_local_context (s : TranslationState) : LocalCtx :=
  let recent_translations := s.translation_history.reverse.take 5 |>.reverse
  let recent_originals := s.chunk_history.reverse.take 5 |>.reverse
  let summaries := s.history_summaries.reverse.take 5 |>.reverse
  { recent_translations := recent_translations.reverse.take 3 |>.reverse
    recent_originals := recent_originals.reverse.take 3 |>.reverse
    context_summaries := summaries
    entity_translations := get_entity_translations s }

/-- Merge an extra glossary into the package (`package["hard_glossary"].update`). -/
def dupdate (d extra : List (String × String)) : List (String × String) :=
  extra.foldl (fun acc p => dinsert p.1 p.2 acc) d

/-- `build_context_package` as the orchestrator calls it (no extra hard
glossary is passed from `execute_round`). -/
def build_context_package (s : TranslationState) (current_chunk_text : String)
    (current_chunk_index : Nat)
    (hard_glossary : List (String × String) := []) : ContextPackage :=
  let package := get_context_package s
  let package :=
    if hard_glossary ≠ [] then
      { package with hard_glossary := dupdate package.hard_glossary hard_glossary }
    else package
  { package with
    rules := some (build_rules s.preset_id)
    local_context := some (build_local_context s)
    chunk := some current_chunk_text
    chunk_index := some current_chunk_index
    document_type := some s.document_type }

/-! ## Error-list tracking through the validation pipeline -/

/-- The truncation error record added by `_rule_based_validation`. -/
def truncError : VError :=
  ⟨"completion", "Translation appears truncated (ends with ...)", "hard"⟩

theorem add_error_errors (r : ValidationResult) (ty m sev : String) :
    (add_error r ty m sev).errors = r.errors ++ [⟨ty, m, sev⟩] := rfl

theorem add_warning_errors (r : ValidationResult) (ty m : String) :
    (add_warning r ty m).errors = r.errors := rfl

theorem set_repair_errors (r : ValidationResult) (ty d : String) :
    (set_repair r ty d).errors = r.errors := rfl

/-- The truncation check appends exactly `truncError` when it fires. -/
theorem check_truncation_fires (r : ValidationResult) (t : List Char)
    (h : pyEndsWith (pyRstrip t) "...".data = true ∨
      pyEndsWith (pyRstrip t) "…".data = true) :
    (check_truncation r t).errors = r.errors ++ [truncError] := by
  rw [check_truncation, if_pos h]
  rfl

theorem check_truncation_errors (r : ValidationResult) (t : List Char) {e : VError}
    (h : e ∈ (check_truncation r t).errors) :
    e ∈ r.errors ∨ e = truncError := by
  rw [check_truncation] at h
  split at h
  · rw [add_error_errors, List.mem_append] at h
    rcases h with h | h
    · exact Or.inl h
    · simp at h
      exact Or.inr (by rw [h]; rfl)
  · exact Or.inl h

theorem check_sentence_mono (r : ValidationResult) (t : List Char) (f : Bool)
    {e : VError} (h : e ∈ r.errors) :
    e ∈ (check_sentence_completion r t f).errors := by
  rw [check_sentence_completion]
  split
  · split
    · rw [add_error_errors, List.mem_append]
      exact Or.inl h
    · exact h
  · exact h

theorem check_sentence_errors (r : ValidationResult) (t : List Char) (f : Bool)
    {e : VError} (h : e ∈ (check_sentence_completion r t f).errors) :
    e ∈ r.errors ∨ e.type = "completion" := by
  rw [check_sentence_completion] at h
  split at h
  · split at h
    · rw [add_error_errors, List.mem_append] at h
      rcases h with h | h
      · exact Or.inl h
      · simp at h
        exact Or.inr (by rw [h])
    · exact Or.inl h
  · exact Or.inl h

theorem check_ratio_mono (r : ValidationResult) (t o : List Char) (f : Bool)
    {e : VError} (h : e ∈ r.errors) :
    e ∈ (check_length_ratio r t o f).errors := by
  rw [check_length_ratio]
  split
  · split
    · rw [add_error_errors, List.mem_append]
      exact Or.inl h
    · exact h
  · exact h

theorem check_ratio_errors (r : ValidationResult) (t o : List Char) (f : Bool)
    {e : VError} (h : e ∈ (check_length_ratio r t o f).errors) :
    e ∈ r.errors ∨ e.type = "completion" := by
  rw [check_length_ratio] at h
  split at h
  · split at h
    · rw [add_error_errors, List.mem_append] at h
      rcases h with h | h
      · exact Or.inl h
      · simp at h
        exact Or.inr (by rw [h])
    · exact Or.inl h
  · exact Or.inl h

theorem validate_patent_format_errors (r : ValidationResult) (t : List Char)
    (c : ContextPackage) : (validate_patent_format r t c).errors = r.errors := by
  rw [validate_patent_format]
  split <;> split <;> rfl

theorem validate_paper_format_errors (r : ValidationResult) (t : List Char)
    (c : ContextPackage) : (validate_paper_format r t c).errors = r.errors := by
  rw [validate_paper_format]
  split <;> rfl

theorem validate_subtitle_format_mono (r : ValidationResult) (t : List Char)
    (c : ContextPackage) {e : VError} (h : e ∈ r.errors) :
    e ∈ (validate_subtitle_format r t c).errors := by
  rw [validate_subtitle_format]
  split
  · rw [add_error_errors, List.mem_append]
    exact Or.inl h
  · exact h

theorem validate_subtitle_format_errors (r : ValidationResult) (t : List Char)
    (c : ContextPackage) {e : VError}
    (h : e ∈ (validate_subtitle_format r t c).errors) :
    e ∈ r.errors ∨ e.type = "format" := by
  rw [validate_subtitle_format] at h
  split at h
  · rw [add_error_errors, List.mem_append] at h
    rcases h with h | h
    · exact Or.inl h
    · simp at h
      exact Or.inr (by rw [h])
  · exact Or.inl h

theorem check_preset_format_mono (r : ValidationResult) (t : List Char)
    (c : ContextPackage) (p : String) {e : VError} (h : e ∈ r.errors) :
    e ∈ (check_preset_format r t c p).errors := by
  rw [check_preset_format]
  split
  · exact validate_subtitle_format_mono r t c h
  · split
    · rw [validate_patent_format_errors]
      exact h
    · split
      · rw [validate_paper_format_errors]
        exact h
      · exact h

theorem check_preset_format_errors (r : ValidationResult) (t : List Char)
    (c : ContextPackage) (p : String) {e : VError}
    (h : e ∈ (check_preset_format r t c p).errors) :
    e ∈ r.errors ∨ e.type = "format" := by
  rw [check_preset_format] at h
  split at h
  · exact validate_subtitle_format_errors r t c h
  · split at h
    · rw [validate_patent_format_errors] at h
      exact Or.inl h
    · split at h
      · rw [validate_paper_format_errors] at h
        exact Or.inl h
      · exact Or.inl h

theorem forbidden_fold_mono (ws : List String) (t : List Char)
    (r : ValidationResult) {e : VError} (h : e ∈ r.errors) :
    e ∈ (ws.foldl
      (fun acc word =>
        if pyIn (pyLower word.data) (pyLower t) then
          add_error acc "forbidden" ("Contains forbidden word: " ++ word) "hard"
        else acc) r).errors := by
  induction ws generalizing r with
  | nil => exact h
  | cons w rest ih =>
    rw [List.foldl_cons]
    apply ih
    split
    · rw [add_error_errors, List.mem_append]
      exact Or.inl h
    · exact h

theorem check_forbidden_content_mono (r : ValidationResult) (t : List Char)
    (c : ContextPackage) {e : VError} (h : e ∈ r.errors) :
    e ∈ (check_forbidden_content r t c).errors :=
  forbidden_fold_mono _ t r h

/-- With a context built by `build_context_package` (whose `style` key is
absent) the forbidden-content check is the identity. -/
theorem check_forbidden_content_skipped (r : ValidationResult) (t : List Char)
    {c : ContextPackage} (hstyle : c.style = none) :
    check_forbidden_content r t c = r := by
  rw [check_forbidden_content, hstyle]
  rfl

theorem clc_warn_long_errors (r : ValidationResult) (t o : List Char) :
    (clc_warn_long r t o).errors = r.errors := by
  rw [clc_warn_long]
  split <;> rfl

theorem check_length_constraints_mono (r : ValidationResult) (t o : List Char)
    {e : VError} (h : e ∈ r.errors) :
    e ∈ (check_length_constraints r t o).errors := by
  rw [check_length_constraints]
  split
  · rw [add_error_errors, clc_warn_long_errors, List.mem_append]
    exact Or.inl h
  · rw [clc_warn_long_errors]
    exact h

theorem check_length_constraints_errors (r : ValidationResult) (t o : List Char)
    {e : VError} (h : e ∈ (check_length_constraints r t o).errors) :
    e ∈ r.errors ∨ e.type = "completion" := by
  rw [check_length_constraints] at h
  split at h
  · rw [add_error_errors, clc_warn_long_errors, List.mem_append] at h
    rcases h with h | h
    · exact Or.inl h
    · simp at h
      exact Or.inr (by rw [h])
  · rw [clc_warn_long_errors] at h
    exact Or.inl h

theorem terminology_fold_errors (ts : List String) (t : List Char)
    (r : ValidationResult) :
    (ts.foldl
      (fun acc term =>
        if ¬ pyIn (pyLower term.data) (pyLower t) then
          add_warning acc "terminology"
            ("Glossary term " ++ term ++ " not found in translation")
        else acc) r).errors = r.errors := by
  induction ts generalizing r with
  | nil => rfl
  | cons w rest ih =>
    rw [List.foldl_cons]
    rw [ih]
    split <;> rfl

theorem check_terminology_errors (r : ValidationResult) (t : List Char)
    (c : ContextPackage) : (check_terminology r t c).errors = r.errors := by
  rw [check_terminology]
  cases c.glossary with
  | none => rfl
  | some g =>
    simp only
    split
    · rfl
    · exact terminology_fold_errors _ t r

theorem llm_validation_errors (r : ValidationResult) :
    (llm_validation r).errors = r.errors := by
  rw [llm_validation]
  split <;> rfl

theorem determine_repair_errors (r : ValidationResult) :
    (determine_repair r).errors = r.errors := by
  rw [determine_repair]
  split
  · rfl
  · split
    · rfl
    · split
      · rfl
      · split <;> rfl

theorem validate_llm_step_errors (llm : Bool) (r : ValidationResult) :
    (validate_llm_step llm r).errors = r.errors := by
  rw [validate_llm_step]
  split
  · rw [llm_validation_errors]
  · rfl

theorem validate_repair_step_errors (r : ValidationResult) :
    (validate_repair_step r).errors = r.errors := by
  rw [validate_repair_step]
  split
  · rw [determine_repair_errors]
  · rfl

/-- Errors of `validate` are exactly those of the rule-based pass. -/
theorem validate_errors (llm : Bool) (t o : List Char) (c : ContextPackage)
    (p : String) (cs cl : Bool) :
    (validate llm t o c p cs cl).errors =
      (rule_based_validation {} t o c p cs cl).errors := by
  rw [validate, validate_repair_step_errors, validate_llm_step_errors]

/-! ## Strip lemmas -/

theorem pyRstrip_sublist (l : List Char) : List.Sublist (pyRstrip l) l := by
  have h := (List.dropWhile_sublist (p := isPySpace) (l := l.reverse)).reverse
  rwa [List.reverse_reverse] at h

theorem mem_of_mem_pyRstrip {c : Char} {l : List Char}
    (h : c ∈ pyRstrip l) : c ∈ l :=
  (pyRstrip_sublist l).subset h

/-- A list with a non-whitespace character does not strip to empty. -/
theorem pyStrip_ne_nil {l : List Char} {c : Char} (hc : c ∈ l)
    (hns : isPySpace c = false) : pyStrip l ≠ [] := by
  intro hnil
  rw [pyStrip, pyRstrip, List.reverse_eq_nil_iff, List.dropWhile_eq_nil_iff] at hnil
  have hall : ∀ x ∈ pyLstrip l, isPySpace x = true := by
    intro x hx
    exact hnil x (List.mem_reverse.mpr hx)
  by_cases hls : pyLstrip l = []
  · rw [pyLstrip, List.dropWhile_eq_nil_iff] at hls
    rw [hls c hc] at hns
    exact Bool.true_eq_false.mp hns
  · have hhead := List.head_dropWhile_not isPySpace l (by rwa [pyLstrip] at hls)
    have hmem := List.head_mem (by rwa [pyLstrip] at hls :
      l.dropWhile isPySpace ≠ [])
    have htrue := hall _ hmem
    rw [htrue] at hhead
    exact Bool.true_eq_false.mp hhead

/-- A string whose right-strip ends in a given non-space suffix does not
strip to empty. -/
theorem pyStrip_ne_nil_of_rstrip_suffix {l suf : List Char} {c : Char}
    (hend : pyEndsWith (pyRstrip l) suf = true) (hc : c ∈ suf)
    (hns : isPySpace c = false) : pyStrip l ≠ [] := by
  have hsfx : suf <:+ pyRstrip l := of_decide_eq_true hend
  obtain ⟨pre, hpre⟩ := hsfx
  have hmem : c ∈ pyRstrip l := by
    rw [← hpre]
    exact List.mem_append_right pre hc
  exact pyStrip_ne_nil (mem_of_mem_pyRstrip hmem) hns

/-! ## Claim C7 -/

/-- Claim C7: whenever the right-stripped translation ends with `...` or `…`,
`validate` reports the truncation record — a hard error of kind completion —
for every original chunk, context, preset, LLM flag, and toggle settings. -/
theorem C7_truncation_hard_error (llm cs cl : Bool) (t o : List Char)
    (ctx : ContextPackage) (p : String)
    (h : pyEndsWith (pyRstrip t) "...".data = true ∨
      pyEndsWith (pyRstrip t) "…".data = true) :
    truncError ∈ (validate llm t o ctx p cs cl).errors ∧
      truncError.type = "completion" ∧ truncError.severity = "hard" := by
  refine ⟨?_, rfl, rfl⟩
  have hne : pyStrip t ≠ [] := by
    rcases h with h | h
    · exact pyStrip_ne_nil_of_rstrip_suffix (c := '.') h (by decide) (by decide)
    · exact pyStrip_ne_nil_of_rstrip_suffix (c := '…') h (by decide) (by decide)
  rw [validate_errors]
  simp only [rule_based_validation]
  rw [if_neg hne, check_terminology_errors]
  apply check_length_constraints_mono
  apply check_forbidden_content_mono
  apply check_preset_format_mono
  apply check_ratio_mono
  apply check_sentence_mono
  rw [check_truncation_fires _ _ h]
  exact List.mem_append_right _ (List.mem_singleton.mpr rfl)

/-- Witness: the truncation rule fires on the spec example, with the subtitle
preset, both toggles off, and LLM validation on. -/
theorem C7_truncation_hard_error_witness :
    truncError ∈ (validate true "안녕하세요 세계…".data "Hello world...".data
      {} "subtitle" false false).errors ∧
      truncError.type = "completion" ∧ truncError.severity = "hard" :=
  C7_truncation_hard_error true false false "안녕하세요 세계…".data
    "Hello world...".data {} "subtitle" (Or.inr (by decide))

/-! ## Claim C6 -/

/-- Claim C6: with at least one hard error present, the recommended repair is
`template_reinforce` for forbidden, else `template_reinforce` for format,
else `re_translate` for completion, else `re_translate`. -/
theorem C6_repair_selection (r : ValidationResult)
    (h : is_hard_error r = true) :
    ((get_hard_error_types r).contains "forbidden" = true →
      (determine_repair r).repair_type = some "template_reinforce") ∧
    ((get_hard_error_types r).contains "forbidden" = false →
      (get_hard_error_types r).contains "format" = true →
      (determine_repair r).repair_type = some "template_reinforce") ∧
    ((get_hard_error_types r).contains "forbidden" = false →
      (get_hard_error_types r).contains "format" = false →
      (get_hard_error_types r).contains "completion" = true →
      (determine_repair r).repair_type = some "re_translate") ∧
    ((get_hard_error_types r).contains "forbidden" = false →
      (get_hard_error_types r).contains "format" = false →
      (get_hard_error_types r).contains "completion" = false →
      (determine_repair r).repair_type = some "re_translate") := by
  have hne : get_hard_error_types r ≠ [] := by
    rw [is_hard_error, List.any_eq_true] at h
    obtain ⟨e, he, hsev⟩ := h
    rw [get_hard_error_types]
    intro hnil
    rw [List.map_eq_nil_iff, List.filter_eq_nil_iff] at hnil
    exact hnil e he hsev
  refine ⟨?_, ?_, ?_, ?_⟩
  · intro h1
    rw [determine_repair, if_neg hne, if_pos h1]
    rfl
  · intro h1 h2
    rw [determine_repair, if_neg hne, if_neg (by rw [h1]; exact Bool.false_ne_true),
      if_pos h2]
    rfl
  · intro h1 h2 h3
    rw [determine_repair, if_neg hne, if_neg (by rw [h1]; exact Bool.false_ne_true),
      if_neg (by rw [h2]; exact Bool.false_ne_true), if_pos h3]
    rfl
  · intro h1 h2 h3
    rw [determine_repair, if_neg hne, if_neg (by rw [h1]; exact Bool.false_ne_true),
      if_neg (by rw [h2]; exact Bool.false_ne_true),
      if_neg (by rw [h3]; exact Bool.false_ne_true)]
    rfl

/-- A result with one hard format error and one hard completion error. -/
def c6Result : ValidationResult :=
  add_error (add_error {} "format" "bad format" "hard")
    "completion" "truncated" "hard"

/-- Witness: C6 applied to a concrete result (format beats completion). -/
theorem C6_repair_selection_witness :
    (determine_repair c6Result).repair_type = some "template_reinforce" :=
  (C6_repair_selection c6Result (by decide)).2.1 (by decide) (by decide)

/-! ## Claim C2 -/

/-- No validation run on a context built by `build_context_package` can ever
produce a forbidden-content error: the check reads the absent key `style`
(the builder writes `style_guide`), so its word list is always empty, and
`forbidden_phrases` is checked nowhere at all. -/
theorem built_context_never_flags_forbidden (s : TranslationState)
    (chunkText : String) (idx : Nat) (llm cs cl : Bool) (t o : List Char)
    (p : String) :
    ∀ e ∈ (validate llm t o (build_context_package s chunkText idx) p cs cl).errors,
      e.type ≠ "forbidden" := by
  intro e he
  rw [validate_errors] at he
  simp only [rule_based_validation] at he
  by_cases hne : pyStrip t = []
  · rw [if_pos hne, add_error_errors] at he
    rcases List.mem_append.mp he with h1 | h1
    · simp at h1
    · rw [List.mem_singleton.mp h1]
      decide
  · rw [if_neg hne, check_terminology_errors] at he
    rcases check_length_constraints_errors _ _ _ he with he | hty
    · rw [check_forbidden_content_skipped _ _ rfl] at he
      rcases check_preset_format_errors _ _ _ _ he with he | hty
      · rcases check_ratio_errors _ _ _ _ he with he | hty
        · rcases check_sentence_errors _ _ _ he with he | hty
          · rcases check_truncation_errors _ _ he with he | hty
            · simp at he
            · rw [hty]
              decide
          · rw [hty]
            decide
        · rw [hty]
          decide
      · rw [hty]
        decide
    · rw [hty]
      decide

/-- A state whose style guide forbids the word `damn`. -/
def c2State : TranslationState :=
  { initState with style_guide := { forbidden_words := ["damn"] } }

/-- The translation used as C2's failing input. -/
def c2Translation : List Char := "It was damn hot.".data

/-- Claim C2 fails on the code: although the translation contains the
forbidden word `damn` (case-insensitively) from the state's style guide,
validation with the orchestrator-built context reports no error at all —
`_check_forbidden_content` reads `context["style"]` while the builder emits
`style_guide`, so the check never sees the word list. -/
theorem C2_forbidden_check_dead :
    pyIn (pyLower "damn".data) (pyLower c2Translation) = true ∧
    c2State.style_guide.forbidden_words = ["damn"] ∧
    (validate false c2Translation "The weather report.".data
      (build_context_package c2State "The weather report." 0)
      "general" true true).errors = [] := by
  refine ⟨by decide, rfl, by decide⟩

/-! ## REPL environment (src/v2/repl_environment_v2.py) -/

/-- Dataclass `ChunkInfo`. -/
structure ChunkInfo where
  start : Nat
  stop : Nat
  text : String
  index : Nat
  deriving Repr, DecidableEq

/-- The REPL fields the chunk-selection path touches. -/
structure ReplState where
  chunks : List ChunkInfo
  state : TranslationState
  deriving Repr, DecidableEq

/-- `EnhancedREPL.__init__` (chunk-selection-relevant fields). -/
def newRepl (preset : String := "general") : ReplState :=
  { chunks := [], state := { initState with preset_id := preset } }

/-- Cumulative start offset of chunk `i` (`sum(len(chunks[j]) for j in range(i))`). -/
def chunkStart (chunks : List String) (i : Nat) : Nat :=
  ((chunks.take i).map String.length).sum

/-- `EnhancedREPL.set_original_text`. -/
def set_original_text (r : ReplState) (chunks : List String) : ReplState :=
  { r with
    chunks := (List.range chunks.length).map (fun i =>
      { start := chunkStart chunks i
        stop := chunkStart chunks i + ((chunks.get? i).getD "").length
        text := (chunks.get? i).getD ""
        index := i })
    state := { r.state with
      chunk_history := []
      translation_history := []
      current_chunk_index := 0
      completed_chunks := 0 } }

/-- `EnhancedREPL._get_chunk`. -/
def get_chunk (r : ReplState) (chunk_index : Int) : Option String :=
  if 0 ≤ chunk_index ∧ chunk_index.toNat < r.chunks.length then
    (r.chunks.get? chunk_index.toNat).map ChunkInfo.text
  else none

/-- Word characters of Python `\w` (ASCII model). -/
def isWordChar (c : Char) : Bool := c.isAlphanum || c = '_'

/-- `re.findall(r"\b\w+\b", s)`: the maximal word-character runs. -/
def findallWords : List Char → List Char → List (List Char)
  | [], acc => if acc = [] then [] else [acc.reverse]
  | c :: rest, acc =>
    if isWordChar c then findallWords rest (c :: acc)
    else if acc = [] then findallWords rest []
    else acc.reverse :: findallWords rest []

/-- `EnhancedREPL._compute_similarity`: Jaccard similarity of the lowercase
token sets (sets modelled by deduplicated lists). -/
def compute_similarity (prev_chunk cur_chunk : String) : ℚ :=
  let words1 := (findallWords (pyLower prev_chunk.data) []).dedup
  let words2 := (findallWords (pyLower cur_chunk.data) []).dedup
  if words1 = [] ∨ words2 = [] then 0
  else
    ((words1.filter (fun w => w ∈ words2)).length : ℚ) /
      (((words1 ++ words2).dedup).length : ℚ)

/-- The `for i, idx in enumerate(chunk_indices)` best-similarity loop; the
state is `(best_idx, best_sim)`, initially `(0, 0.0)`.  The `idx` values are
in `chunks` range by construction, so the out-of-range default is inert. -/
def bestSimLoop (r : ReplState) (prev_chunk : String) :
    List (Nat × Nat) → Nat × ℚ → Nat × ℚ
  | [], st => st
  | (i, idx) :: rest, st =>
    let sim := compute_similarity prev_chunk
      (((r.chunks.get? idx).map ChunkInfo.text).getD "")
    if sim > st.2 then bestSimLoop r prev_chunk rest (i, sim)
    else bestSimLoop r prev_chunk rest st

/-- `EnhancedREPL._select_next_chunk`.  List subscripts are modelled
fallibly: `chunk_history[current_chunk_index]` out of range gives
`.error "IndexError"`, as `exec` would surface it. -/
def select_next_chunk (r : ReplState) (strategy : String := "sequential") :
    Except String (Option Nat) :=
  if r.state.current_chunk_index ≥ r.chunks.length then .ok none
  else
    let chunk_indices := List.range' r.state.current_chunk_index
      (r.chunks.length - r.state.current_chunk_index)
    if strategy = "sequential" then .ok chunk_indices.head?
    else if strategy = "adaptive" then
      if chunk_indices.length ≥ 2 then
        match r.state.chunk_history.get? r.state.current_chunk_index with
        | none => .error "IndexError"
        | some _next_chunk =>
          let prev_chunk := (r.state.translation_history.getLast?).getD ""
          let best := bestSimLoop r prev_chunk chunk_indices.enum (0, 0)
          .ok (chunk_indices.get? best.1)
      else .ok chunk_indices.head?
    else .ok chunk_indices.head?

/-- In every state the REPL workflow reaches, `chunk_history` holds exactly
the committed chunks, whose count is `current_chunk_index`; with at least two
chunks still untranslated the adaptive branch therefore always subscripts
`chunk_history` out of range. -/
theorem adaptive_always_crashes (r : ReplState)
    (hinv : r.state.chunk_history.length = r.state.current_chunk_index)
    (hrem : r.state.current_chunk_index + 2 ≤ r.chunks.length) :
    select_next_chunk r "adaptive" = .error "IndexError" := by
  rw [select_next_chunk]
  rw [if_neg (by omega)]
  rw [if_neg (by decide), if_pos rfl]
  rw [if_pos (by rw [List.length_range']; omega)]
  rw [List.get?_eq_none.mpr (by omega)]

/-- The failing input: a fresh REPL over two chunks, before any commit. -/
def c3Repl : ReplState := set_original_text (newRepl "general") ["a b", "c d"]

/-- Claim C3 fails on the code: on a reachable state with two untranslated
chunks, `_select_next_chunk("adaptive")` evaluates the vestigial
`chunk_history[current_chunk_index]` and raises IndexError instead of
returning an index (`chunk_history` holds only committed chunks, so the
subscript is always out of range in that branch). -/
theorem C3_adaptive_index_error :
    select_next_chunk c3Repl "adaptive" = .error "IndexError" ∧
    select_next_chunk c3Repl "sequential" = .ok (some 0) ∧
    select_next_chunk c3Repl "priority" = .ok (some 0) ∧
    get_chunk c3Repl 0 = some "a b" := by
  refine ⟨?_, ?_, ?_, ?_⟩ <;> rfl

/-! ## Chunking strategy (src/v2/chunking_strategy.py) -/

/-- The character class `'"\' )'` of `_find_sentence_boundary` (quote, double
quote, space, closing paren); the two class strings in the source denote the
same set. -/
def quoteParenSpace (c : Char) : Bool :=
  c = ' ' || c = Char.ofNat 34 || c = Char.ofNat 39 || c = ')'

/-- The inner `while end < len(text) and text[end] in '"\' )'` skip loop.
The fuel only bounds iterations; `text.length + 1` at the call site exceeds
the at most `text.length - e` possible steps, so exhaustion is unreachable. -/
def skipCloseRun (text : List Char) : Nat → Nat → Nat
  | 0, e => e
  | fuel + 1, e =>
    match text.get? e with
    | some c => if quoteParenSpace c then skipCloseRun text fuel (e + 1) else e
    | none => e

/-- The scan loop of `_find_sentence_boundary`: `end` is the cursor, the exit
value is `start + max_size`.  Inside the loop `end < len(text) - 1`, so both
`text[end]` and `text[end + 1]` are safe; the fuel (`max_size + 1` at the call
site) exceeds the at most `max_size` iterations. -/
def sentLoop (text : List Char) (start max_size : Nat) : Nat → Nat → Nat
  | 0, _ => start + max_size
  | fuel + 1, e =>
    if h : e < min (start + max_size) (text.length - 1) then
      have he : e < text.length - 1 := Nat.lt_of_lt_of_le h (Nat.min_le_right _ _)
      have he1 : e + 1 < text.length := by omega
      let c := text.get ⟨e, by omega⟩
      if c = '.' ∨ c = '!' ∨ c = '?' then
        let next_char := text.get ⟨e + 1, he1⟩
        if quoteParenSpace next_char then
          if (c = '!' ∨ c = '?') ∧ quoteParenSpace next_char then
            let e2 := skipCloseRun text (text.length + 1) (e + 1)
            if h2 : e2 < text.length then
              if isPySpace (text.get ⟨e2, h2⟩) then e2 + 1
              else sentLoop text start max_size fuel (e2 + 1)
            else sentLoop text start max_size fuel (e2 + 1)
          else e + 1
        else sentLoop text start max_size fuel (e + 1)
      else sentLoop text start max_size fuel (e + 1)
    else start + max_size

/-- `ChunkingStrategy._find_sentence_boundary`. -/
def find_sentence_boundary (text : List Char) (start max_size : Nat) : Nat :=
  sentLoop text start max_size (max_size + 1) start

/-- The scan loop of `_find_paragraph_boundary`. -/
def paraLoop (text : List Char) (start max_size : Nat) : Nat → Nat → Nat
  | 0, _ => start + max_size
  | fuel + 1, e =>
    if h : e < min (start + max_size) (text.length - 1) then
      have he : e < text.length - 1 := Nat.lt_of_lt_of_le h (Nat.min_le_right _ _)
      if text.get ⟨e, by omega⟩ = '\n' ∧ e + 1 < text.length ∧
          text.get? (e + 1) = some '\n' then
        e + 2
      else paraLoop text start max_size fuel (e + 1)
    else start + max_size

/-- `ChunkingStrategy._find_paragraph_boundary`. -/
def find_paragraph_boundary (text : List Char) (start max_size : Nat) : Nat :=
  paraLoop text start max_size (max_size + 1) start

/-- `ChunkingStrategy._find_break_point`. -/
def find_break_point (text : List Char) (start max_size : Nat) : Nat :=
  let e := find_sentence_boundary text start max_size
  if e > start then e
  else
    let e2 := find_paragraph_boundary text start max_size
    if e2 > start then e2
    else min (start + max_size) text.length

/-- Python slice `text[pos:e]`. -/
def pySlice (text : List Char) (pos e : Nat) : List Char :=
  (text.drop pos).take (e - pos)

/-- The `while current_pos < text_length` loop of `chunk_text`.  The fuel
(`text.length + 1` at the call site) exceeds the iteration count whenever
`chunk_size ≥ 1`, because the position then strictly increases. -/
def chunkLoop (text : List Char) (chunk_size overlap : Nat) :
    Nat → Nat → List (Nat × Nat × List Char)
  | 0, _ => []
  | fuel + 1, pos =>
    if pos < text.length then
      let e := find_break_point text pos chunk_size
      let chunkStr := pyStrip (pySlice text pos e)
      let rest :=
        if e ≥ text.length then []
        else chunkLoop text chunk_size overlap fuel (max (pos + overlap) e)
      if chunkStr ≠ [] then (pos, e, chunkStr) :: rest else rest
    else []

/-- `ChunkingStrategy.chunk_text`. -/
def chunk_text (text : List Char) (chunk_size : Nat := 2000)
    (overlap : Nat := 150) : List (Nat × Nat × List Char) :=
  if text = [] then [] else chunkLoop text chunk_size overlap (text.length + 1) 0

theorem skipCloseRun_ge (text : List Char) :
    ∀ fuel e, e ≤ skipCloseRun text fuel e := by
  intro fuel
  induction fuel with
  | zero => intro e; exact Nat.le_refl e
  | succ fuel ih =>
    intro e
    rw [skipCloseRun]
    cases text.get? e with
    | none => exact Nat.le_refl e
    | some c =>
      simp only
      split
      · exact Nat.le_trans (Nat.le_succ e) (ih (e + 1))
      · exact Nat.le_refl e

theorem sentLoop_ge (text : List Char) (start max_size : Nat)
    (hms : 1 ≤ max_size) :
    ∀ fuel e, start ≤ e →
      start + 1 ≤ sentLoop text start max_size fuel e := by
  intro fuel
  induction fuel with
  | zero => intro e _; rw [sentLoop]; omega
  | succ fuel ih =>
    intro e he
    rw [sentLoop]
    split
    · simp only
      split
      · split
        · split
          · split
            · split
              · have := skipCloseRun_ge text (text.length + 1) (e + 1)
                omega
              · exact ih _ (by have := skipCloseRun_ge text (text.length + 1) (e + 1); omega)
            · exact ih _ (by have := skipCloseRun_ge text (text.length + 1) (e + 1); omega)
          · omega
        · exact ih (e + 1) (by omega)
      · exact ih (e + 1) (by omega)
    · omega

theorem find_break_point_gt (text : List Char) (start max_size : Nat)
    (hms : 1 ≤ max_size) : start < find_break_point text start max_size := by
  rw [find_break_point]
  have h := sentLoop_ge text start max_size hms (max_size + 1) start
    (Nat.le_refl start)
  rw [if_pos (by rw [find_sentence_boundary]; omega)]
  rw [find_sentence_boundary]
  omega

/-- Every chunk `chunk_text` returns has non-empty text. -/
theorem chunkLoop_nonempty (text : List Char) (cs ov : Nat) :
    ∀ fuel pos t, t ∈ chunkLoop text cs ov fuel pos → t.2.2 ≠ [] := by
  intro fuel
  induction fuel with
  | zero => intro pos t ht; simp [chunkLoop] at ht
  | succ fuel ih =>
    intro pos t ht
    rw [chunkLoop] at ht
    split at ht
    · simp only at ht
      split at ht
      · rcases List.mem_cons.mp ht with h1 | h1
        · subst h1
          simpa using (by assumption : ¬ pyStrip (pySlice text pos
              (find_break_point text pos cs)) = [])
        · split at h1
          · simp at h1
          · exact ih _ t h1
      · split at ht
        · simp at ht
        · exact ih _ t ht
    · simp at ht

/-- A character of the slice `text[pos:e]`. -/
theorem mem_pySlice (text : List Char) (pos e i : Nat) (hi : i < text.length)
    (hpi : pos ≤ i) (hie : i < e) :
    text.get ⟨i, hi⟩ ∈ pySlice text pos e := by
  have hl : i - pos < (pySlice text pos e).length := by
    rw [pySlice, List.length_take, List.length_drop]
    omega
  have hmem : (pySlice text pos e).get ⟨i - pos, hl⟩ ∈ pySlice text pos e :=
    List.getElem_mem hl
  have hget : (pySlice text pos e).get ⟨i - pos, hl⟩ = text.get ⟨i, hi⟩ := by
    have h2 : i - pos < ((text.drop pos).take (e - pos)).length := hl
    show ((text.drop pos).take (e - pos))[i - pos] = text[i]
    rw [List.getElem_take, List.getElem_drop]
    congr 1
    omega
  rw [hget] at hmem
  exact hmem

/-- Coverage of the chunk loop with `overlap = 0`: every non-whitespace
position from `pos` on lies in some returned span. -/
theorem chunkLoop_covers (text : List Char) (cs : Nat) (hcs : 1 ≤ cs) :
    ∀ fuel pos i (hi : i < text.length), pos ≤ i →
      text.length ≤ fuel + pos →
      isPySpace (text.get ⟨i, hi⟩) = false →
      ∃ t ∈ chunkLoop text cs 0 fuel pos, t.1 ≤ i ∧ i < t.2.1 := by
  intro fuel
  induction fuel with
  | zero => intro pos i hi hpi hfuel _; omega
  | succ fuel ih =>
    intro pos i hi hpi hfuel hns
    have hpos : pos < text.length := by omega
    rw [chunkLoop, if_pos hpos]
    simp only
    have hgt := find_break_point_gt text pos cs hcs
    by_cases hie : i < find_break_point text pos cs
    · have hne : pyStrip (pySlice text pos (find_break_point text pos cs)) ≠ [] :=
        pyStrip_ne_nil (mem_pySlice text pos _ i hi hpi hie) hns
      rw [if_pos hne]
      exact ⟨(pos, find_break_point text pos cs, _),
        List.mem_cons_self _ _, hpi, hie⟩
    · have hei : find_break_point text pos cs ≤ i := by omega
      have hlt : ¬ (find_break_point text pos cs ≥ text.length) := by omega
      rw [if_neg hlt]
      have hmax : max (pos + 0) (find_break_point text pos cs) =
          find_break_point text pos cs := by omega
      rw [hmax]
      have hrec := ih (find_break_point text pos cs) i hi hei (by omega) hns
      obtain ⟨t, ht, hcov⟩ := hrec
      split
      · exact ⟨t, List.mem_cons_of_mem _ ht, hcov⟩
      · exact ⟨t, ht, hcov⟩

/-- Claim C1 (amended): every returned chunk text is non-empty, and with
`overlap = 0` every non-whitespace character position of the input lies
inside the `[start, end)` span of some returned chunk.  With `overlap > 0`
the step `current_pos = max(current_pos + overlap, end)` can skip past an
early break point and lose content, and a chunk may exceed `chunk_size` when
the boundary search skips a closing-quote run. -/
theorem C1_chunk_text_amended (text : List Char) (chunk_size overlap : Nat)
    (hcs : 1 ≤ chunk_size) :
    (∀ t ∈ chunk_text text chunk_size overlap, t.2.2 ≠ []) ∧
    (overlap = 0 → ∀ i (hi : i < text.length),
      isPySpace (text.get ⟨i, hi⟩) = false →
      ∃ t ∈ chunk_text text chunk_size overlap, t.1 ≤ i ∧ i < t.2.1) := by
  constructor
  · intro t ht
    rw [chunk_text] at ht
    split at ht
    · simp at ht
    · exact chunkLoop_nonempty text chunk_size overlap _ 0 t ht
  · intro hov i hi hns
    rw [chunk_text]
    split
    · subst (by assumption : text = [])
      simp at hi
    · subst hov
      exact chunkLoop_covers text chunk_size hcs (text.length + 1) 0 i hi
        (Nat.zero_le i) (by omega) hns

/-- Witness: the amended C1 theorem on a concrete input (`"a. b"`, chunk
size 5, overlap 0; position 3 holds the non-space `b`). -/
theorem C1_chunk_text_amended_witness :
    (∀ t ∈ chunk_text "a. b".data 5 0, t.2.2 ≠ []) ∧
    (∃ t ∈ chunk_text "a. b".data 5 0, t.1 ≤ 3 ∧ 3 < t.2.1) :=
  ⟨(C1_chunk_text_amended "a. b".data 5 0 (by decide)).1,
   (C1_chunk_text_amended "a. b".data 5 0 (by decide)).2 rfl 3 (by decide)
     (by decide)⟩

/-- Claim C1, as stated, is false.  With the defaults scaled down
(`chunk_size=10`, `overlap=5`) on `"A. 0123456789"`, the advance
`current_pos = max(current_pos + overlap, end)` jumps from the break point 2
to position 5: positions 3 and 4 (`0` and `1`) belong to no returned span and
the character `0` occurs in no returned chunk text.  And on
`'A!"""""""""' + "\nb"` with `chunk_size=5`, `overlap=0` the quote-skipping
branch returns a chunk of 11 characters, exceeding `chunk_size` although a
viable boundary exists. -/
theorem C1_counterexample :
    chunk_text "A. 0123456789".data 10 5 =
      [(0, 2, "A.".data), (5, 15, "23456789".data)] ∧
    (∀ t ∈ chunk_text "A. 0123456789".data 10 5, ¬ (t.1 ≤ 3 ∧ 3 < t.2.1)) ∧
    (∀ t ∈ chunk_text "A. 0123456789".data 10 5, Char.ofNat 48 ∉ t.2.2) ∧
    (∃ t ∈ chunk_text "A!\"\"\"\"\"\"\"\"\"\nb".data 5 0, 5 < t.2.2.length) := by
  refine ⟨by decide, by decide, by decide, by decide⟩

/-! ## SRT parsing and formatting (src/v2/text_utils.py) -/

/-- Python `sep.join(parts)`. -/
def pyJoin (sep : List Char) : List (List Char) → List Char
  | [] => []
  | [x] => x
  | x :: y :: rest => x ++ sep ++ pyJoin sep (y :: rest)

/-- Decimal value of a digit string (the accumulator loop of `int`). -/
def digitsVal (ds : List Char) : Nat :=
  ds.foldl (fun a c => 10 * a + (c.toNat - 48)) 0

/-- Digit-string to number, failing on empty or non-digit input. -/
def digitsValOpt (ds : List Char) : Option Nat :=
  if ds ≠ [] ∧ ds.all Char.isDigit then some (digitsVal ds) else none

/-- Python `int(s)` (ASCII model): strip, optional sign, decimal digits;
anything else raises `ValueError`, modelled as `none`. -/
def pyInt (l : List Char) : Option Int :=
  match pyStrip l with
  | [] => none
  | c :: rest =>
    if c = '+' then (digitsValOpt rest).map Int.ofNat
    else if c = '-' then (digitsValOpt rest).map (fun n => -(n : Int))
    else (digitsValOpt (c :: rest)).map Int.ofNat

/-- Python `str(n)` for a natural number, digit by digit; the fuel only
bounds the division chain (a fuel of `n` always suffices, and the fuel-0
fallback agrees with the main branch on the one-digit numbers it can see). -/
def natReprAux : Nat → Nat → List Char
  | 0, n => [Char.ofNat (48 + n % 10)]
  | fuel + 1, n =>
    if n < 10 then [Char.ofNat (48 + n)]
    else natReprAux fuel (n / 10) ++ [Char.ofNat (48 + n % 10)]

/-- Python `str(n)` for a natural number: canonical decimal. -/
def natRepr (n : Nat) : List Char := natReprAux n n

/-- Python `str(i)` for an integer. -/
def intRepr (i : Int) : List Char :=
  if i < 0 then '-' :: natRepr (-i).toNat else natRepr i.toNat

/-- Splitting on `re.split(r"\n\n+", text)`: a separator is a maximal run of
two or more newlines.  Each step consumes at least one character, so the
fuel `l.length + 1` of `splitBlocks` never runs out. -/
def splitBlocksAux : Nat → List Char → List Char → List (List Char)
  | 0, _, acc => [acc.reverse]
  | _ + 1, [], acc => [acc.reverse]
  | fuel + 1, c :: rest, acc =>
    if c = '\n' ∧ rest.head? = some '\n' then
      acc.reverse :: splitBlocksAux fuel (rest.dropWhile (fun x => x = '\n')) []
    else splitBlocksAux fuel rest (c :: acc)

/-- `re.split(r"\n\n+", text)`. -/
def splitBlocks (l : List Char) : List (List Char) :=
  splitBlocksAux (l.length + 1) l []

/-- One timestamp group of the SRT regex:
`\d{2}:\d{2}:\d{2},\d{3}`, returning the matched group and the rest. -/
def matchTsOne : List Char → Option (List Char × List Char)
  | a1 :: a2 :: b1 :: a3 :: a4 :: b2 :: a5 :: a6 :: b3 :: a7 :: a8 :: a9 :: rest =>
    if a1.isDigit ∧ a2.isDigit ∧ b1 = ':' ∧ a3.isDigit ∧ a4.isDigit ∧
        b2 = ':' ∧ a5.isDigit ∧ a6.isDigit ∧ b3 = ',' ∧ a7.isDigit ∧
        a8.isDigit ∧ a9.isDigit then
      some ([a1, a2, b1, a3, a4, b2, a5, a6, b3, a7, a8, a9], rest)
    else none
  | _ => none

/-- `re.match` of the timestamp line pattern
`(\d{2}:\d{2}:\d{2},\d{3})\s*-->\s*(\d{2}:\d{2}:\d{2},\d{3})`; trailing
content is ignored, as with `re.match`. -/
def matchTs (l : List Char) : Option (List Char × List Char) :=
  match matchTsOne l with
  | none => none
  | some (g1, r1) =>
    match r1.dropWhile isPySpace with
    | '-' :: '-' :: '>' :: r2 =>
      match matchTsOne (r2.dropWhile isPySpace) with
      | none => none
      | some (g2, _) => some (g1, g2)
    | _ => none

/-- One parsed SRT entry (`{index, start, end, text}`). -/
structure SrtEntry where
  index : Int
  start : List Char
  stop : List Char
  text : List Char
  deriving Repr, DecidableEq

/-- The per-block body of `parse_srt` (index line, timestamp line, remaining
text lines; `int` failure or a non-matching timestamp skips the block). -/
def parseBlock (block : List Char) : Option SrtEntry :=
  match pySplitCh '\n' (pyStrip block) with
  | l0 :: l1 :: rest =>
    match pyInt (pyStrip l0) with
    | none => none
    | some idx =>
      match matchTs l1 with
      | none => none
      | some (t1, t2) => some ⟨idx, t1, t2, pyJoin ['\n'] rest⟩
  | _ => none

/-- `parse_srt`. -/
def parse_srt (text : List Char) : List SrtEntry :=
  (splitBlocks (pyStrip text)).filterMap parseBlock

/-- The f-string block of `format_srt`. -/
def formatEntry (e : SrtEntry) : List Char :=
  intRepr e.index ++ ['\n'] ++ e.start ++
    (' ' :: '-' :: '-' :: '>' :: ' ' :: []) ++ e.stop ++ ['\n'] ++ e.text

/-- `format_srt`. -/
def format_srt (entries : List SrtEntry) : List Char :=
  pyJoin ('\n' :: '\n' :: []) (entries.map formatEntry) ++ ['\n']

/-- Claim C8, as stated, fails on three well-formed inputs (per the claim's
own description of well-formedness): a block with zero text lines gains an
extra newline (the f-string leaves a trailing newline before the blank-line
join), a leading-zero index line is canonicalised, and a trailing space on a
text line is stripped. -/
theorem C8_counterexample :
    (format_srt (parse_srt "1\n00:00:00,000 --> 00:00:01,000".data) =
        "1\n00:00:00,000 --> 00:00:01,000".data ++ ['\n', '\n'] ∧
      format_srt (parse_srt "1\n00:00:00,000 --> 00:00:01,000".data) ≠
        "1\n00:00:00,000 --> 00:00:01,000".data ++ ['\n'] ∧
      format_srt (parse_srt "1\n00:00:00,000 --> 00:00:01,000".data) ≠
        "1\n00:00:00,000 --> 00:00:01,000".data) ∧
    (format_srt (parse_srt "01\n00:00:00,000 --> 00:00:01,000\nhi".data) ≠
        "01\n00:00:00,000 --> 00:00:01,000\nhi".data ++ ['\n'] ∧
      format_srt (parse_srt "01\n00:00:00,000 --> 00:00:01,000\nhi".data) ≠
        "01\n00:00:00,000 --> 00:00:01,000\nhi".data) ∧
    (format_srt (parse_srt "1\n00:00:00,000 --> 00:00:01,000\nhi ".data) ≠
        "1\n00:00:00,000 --> 00:00:01,000\nhi ".data ++ ['\n'] ∧
      format_srt (parse_srt "1\n00:00:00,000 --> 00:00:01,000\nhi ".data) ≠
        "1\n00:00:00,000 --> 00:00:01,000\nhi ".data) := by
  refine ⟨⟨by decide, by decide, by decide⟩, ⟨by decide, by decide⟩,
    ⟨by decide, by decide⟩⟩

/-! ## Well-formed SRT inputs for the amended round-trip claim -/

/-- The nine digit characters of one `HH:MM:SS,mmm` timestamp. -/
structure TsData where
  a1 : Char
  a2 : Char
  a3 : Char
  a4 : Char
  a5 : Char
  a6 : Char
  a7 : Char
  a8 : Char
  a9 : Char
  deriving Repr, DecidableEq

/-- All nine timestamp characters are digits. -/
def TsOk (T : TsData) : Prop :=
  T.a1.isDigit = true ∧ T.a2.isDigit = true ∧ T.a3.isDigit = true ∧
  T.a4.isDigit = true ∧ T.a5.isDigit = true ∧ T.a6.isDigit = true ∧
  T.a7.isDigit = true ∧ T.a8.isDigit = true ∧ T.a9.isDigit = true

instance (T : TsData) : Decidable (TsOk T) := by
  unfold TsOk
  infer_instance

/-- Render a timestamp as its twelve characters `HH:MM:SS,mmm`. -/
def renderTs (T : TsData) : List Char :=
  [T.a1, T.a2, ':', T.a3, T.a4, ':', T.a5, T.a6, ',', T.a7, T.a8, T.a9]

/-- One well-formed SRT block: index, two timestamps, text lines. -/
structure SrtBlock where
  index : Nat
  t1 : TsData
  t2 : TsData
  textLines : List (List Char)
  deriving Repr, DecidableEq

/-- The timestamp line `T1 --> T2` with single spaces. -/
def tsLineOf (b : SrtBlock) : List Char :=
  renderTs b.t1 ++ (' ' :: '-' :: '-' :: '>' :: ' ' :: []) ++ renderTs b.t2

/-- The lines of a rendered block. -/
def blockLines (b : SrtBlock) : List (List Char) :=
  natRepr b.index :: tsLineOf b :: b.textLines

/-- A rendered block: lines joined by single newlines. -/
def renderBlock (b : SrtBlock) : List Char := pyJoin ['\n'] (blockLines b)

/-- A rendered SRT text: blocks separated by exactly one blank line. -/
def renderSrt (bs : List SrtBlock) : List Char :=
  pyJoin ['\n', '\n'] (bs.map renderBlock)

/-- The last character of the last text line is not whitespace. -/
def lastCharOk (b : SrtBlock) : Bool :=
  match b.textLines.getLast? with
  | none => true
  | some l =>
    match l.getLast? with
    | none => true
    | some c => ! isPySpace c

/-- Well-formedness of a block: digit timestamps, at least one text line,
text lines non-empty and newline-free, last text line not ending in
whitespace. -/
def WfBlock (b : SrtBlock) : Prop :=
  TsOk b.t1 ∧ TsOk b.t2 ∧ b.textLines ≠ [] ∧
  (∀ l ∈ b.textLines, l ≠ [] ∧ '\n' ∉ l) ∧ lastCharOk b = true

instance (b : SrtBlock) : Decidable (WfBlock b) := by
  unfold WfBlock
  infer_instance

/-- The entry `parse_srt` produces for a well-formed block. -/
def entryOf (b : SrtBlock) : SrtEntry :=
  ⟨Int.ofNat b.index, renderTs b.t1, renderTs b.t2, pyJoin ['\n'] b.textLines⟩

/-! ## Digit and decimal-representation lemmas -/

theorem digitChar_isDigit (d : Nat) (h : d < 10) :
    (Char.ofNat (48 + d)).isDigit = true := by
  interval_cases d <;> decide

theorem digitChar_toNat (d : Nat) (h : d < 10) :
    (Char.ofNat (48 + d)).toNat = 48 + d := by
  interval_cases d <;> decide

/-- A digit character differs from any non-digit character. -/
theorem digit_ne_of {c : Char} (x : Char) (hc : c.isDigit = true)
    (hx : x.isDigit = false) : c ≠ x := by
  intro he
  rw [he, hx] at hc
  exact Bool.false_ne_true hc

theorem isPySpace_of_digit {c : Char} (h : c.isDigit = true) :
    isPySpace c = false := by
  rw [isPySpace]
  have h1 : c ≠ ' ' := digit_ne_of ' ' h (by decide)
  have h2 : c ≠ '\t' := digit_ne_of '\t' h (by decide)
  have h3 : c ≠ '\n' := digit_ne_of '\n' h (by decide)
  have h4 : c ≠ '\r' := digit_ne_of '\r' h (by decide)
  have h5 : c ≠ Char.ofNat 11 := digit_ne_of (Char.ofNat 11) h (by decide)
  have h6 : c ≠ Char.ofNat 12 := digit_ne_of (Char.ofNat 12) h (by decide)
  simp [h1, h2, h3, h4, h5, h6]

theorem natReprAux_digits : ∀ fuel n c, c ∈ natReprAux fuel n →
    c.isDigit = true := by
  intro fuel
  induction fuel with
  | zero =>
    intro n c hc
    rw [natReprAux] at hc
    rw [List.mem_singleton.mp hc]
    exact digitChar_isDigit _ (Nat.mod_lt _ (by omega))
  | succ fuel ih =>
    intro n c hc
    rw [natReprAux] at hc
    split at hc
    · rw [List.mem_singleton.mp hc]
      exact digitChar_isDigit _ (by omega)
    · rcases List.mem_append.mp hc with h1 | h1
      · exact ih _ c h1
      · rw [List.mem_singleton.mp h1]
        exact digitChar_isDigit _ (Nat.mod_lt _ (by omega))

theorem natRepr_digits (n : Nat) : ∀ c ∈ natRepr n, c.isDigit = true :=
  fun c hc => natReprAux_digits n n c hc

theorem natReprAux_ne_nil (fuel n : Nat) : natReprAux fuel n ≠ [] := by
  cases fuel with
  | zero => rw [natReprAux]; simp
  | succ fuel =>
    rw [natReprAux]
    split
    · simp
    · simp

theorem natRepr_ne_nil (n : Nat) : natRepr n ≠ [] := natReprAux_ne_nil n n

theorem digitsVal_append_singleton (l : List Char) (c : Char) :
    digitsVal (l ++ [c]) = 10 * digitsVal l + (c.toNat - 48) := by
  rw [digitsVal, List.foldl_append]
  rfl

theorem digitsVal_natReprAux : ∀ fuel n, n ≤ fuel →
    digitsVal (natReprAux fuel n) = n := by
  intro fuel
  induction fuel with
  | zero =>
    intro n hn
    have h0 : n = 0 := by omega
    subst h0
    decide
  | succ fuel ih =>
    intro n hn
    rw [natReprAux]
    split
    · rw [digitsVal]
      simp only [List.foldl_cons, List.foldl_nil]
      rw [digitChar_toNat n (by omega)]
      omega
    · rw [digitsVal_append_singleton]
      have hd : n / 10 < n := Nat.div_lt_self (by omega) (by omega)
      rw [ih (n / 10) (by omega)]
      rw [digitChar_toNat _ (Nat.mod_lt _ (by omega))]
      omega

theorem digitsVal_natRepr (n : Nat) : digitsVal (natRepr n) = n :=
  digitsVal_natReprAux n n (Nat.le_refl n)

/-! ## Strip-identity and join lemmas -/

theorem dropWhile_eq_self_of_head {p : Char → Bool} {l : List Char}
    (h : ∀ c, l.head? = some c → p c = false) : l.dropWhile p = l := by
  cases l with
  | nil => rfl
  | cons a as => simp [List.dropWhile_cons, h a rfl]

theorem pyLstrip_eq_self {l : List Char}
    (h : ∀ c, l.head? = some c → isPySpace c = false) : pyLstrip l = l :=
  dropWhile_eq_self_of_head h

theorem pyRstrip_eq_self {l : List Char}
    (h : ∀ c, l.getLast? = some c → isPySpace c = false) : pyRstrip l = l := by
  rw [pyRstrip, dropWhile_eq_self_of_head, List.reverse_reverse]
  intro c hc
  rw [List.head?_reverse] at hc
  exact h c hc

theorem pyStrip_eq_self {l : List Char}
    (hh : ∀ c, l.head? = some c → isPySpace c = false)
    (hl : ∀ c, l.getLast? = some c → isPySpace c = false) : pyStrip l = l := by
  rw [pyStrip, pyLstrip_eq_self hh, pyRstrip_eq_self hl]

theorem pyJoin_ne_nil {sep : List Char} {ls : List (List Char)}
    (hne : ls ≠ []) (h : ∀ l ∈ ls, l ≠ []) : pyJoin sep ls ≠ [] := by
  cases ls with
  | nil => exact absurd rfl hne
  | cons x rest =>
    cases rest with
    | nil => exact h x (List.mem_cons_self _ _)
    | cons y ys =>
      rw [pyJoin]
      have hx := h x (List.mem_cons_self _ _)
      cases x with
      | nil => exact absurd rfl hx
      | cons a as => simp

theorem pyJoin_head? {sep : List Char} (x : List Char)
    (rest : List (List Char)) (hx : x ≠ []) :
    (pyJoin sep (x :: rest)).head? = x.head? := by
  cases rest with
  | nil => rfl
  | cons y ys =>
    rw [pyJoin]
    cases x with
    | nil => exact absurd rfl hx
    | cons a as => simp

theorem mem_of_getLast?_eq {α : Type} {l : List α} {a : α}
    (h : l.getLast? = some a) : a ∈ l := by
  have h2 : a ∈ l.getLast? := by rw [h]; rfl
  obtain ⟨hne, heq⟩ := List.mem_getLast?_eq_getLast h2
  rw [heq]
  exact List.getLast_mem hne

theorem pyJoin_getLast? {sep : List Char} :
    ∀ (ls : List (List Char)) (x : List Char), ls.getLast? = some x →
      (∀ l ∈ ls, l ≠ []) → (pyJoin sep ls).getLast? = x.getLast? := by
  intro ls
  induction ls with
  | nil => intro x hx _; simp at hx
  | cons y rest ih =>
    intro x hx hne
    cases rest with
    | nil =>
      simp at hx
      rw [hx, pyJoin]
    | cons z zs =>
      rw [List.getLast?_cons_cons] at hx
      rw [pyJoin]
      have hjne : pyJoin sep (z :: zs) ≠ [] :=
        pyJoin_ne_nil (by simp) (fun l hl => hne l (List.mem_cons_of_mem _ hl))
      rw [List.getLast?_append_of_ne_nil _ hjne]
      exact ih x hx (fun l hl => hne l (List.mem_cons_of_mem _ hl))

/-- `int(str(n))` round trip, as `parse_srt` computes it. -/
theorem pyInt_natRepr (n : Nat) :
    pyInt (pyStrip (natRepr n)) = some (Int.ofNat n) := by
  have hid : pyStrip (natRepr n) = natRepr n := by
    refine pyStrip_eq_self ?_ ?_
    · intro c hc
      exact isPySpace_of_digit (natRepr_digits n c (List.mem_of_mem_head? hc))
    · intro c hc
      exact isPySpace_of_digit (natRepr_digits n c (mem_of_getLast?_eq hc))
  rw [hid, pyInt, hid]
  cases hr : natRepr n with
  | nil => exact absurd hr (natRepr_ne_nil n)
  | cons c rest =>
    have hcd : c.isDigit = true := natRepr_digits n c (by rw [hr]; simp)
    dsimp only
    rw [if_neg (digit_ne_of '+' hcd (by decide)),
      if_neg (digit_ne_of '-' hcd (by decide))]
    rw [digitsValOpt, if_pos]
    · rw [← hr, digitsVal_natRepr]
      rfl
    · constructor
      · simp
      · rw [List.all_eq_true]
        intro x hx
        exact natRepr_digits n x (by rw [hr]; exact hx)

/-- No two adjacent newlines (no block-separator inside a block). -/
def noNLNL : List Char → Bool
  | [] => true
  | [_] => true
  | a :: b :: rest => !(a == '\n' && b == '\n') && noNLNL (b :: rest)

/-! ## Separator-structure lemmas for the block splitter -/

theorem noNLNL_cons_cons {a b : Char} {rest : List Char} :
    noNLNL (a :: b :: rest) = true ↔
      ¬(a = '\n' ∧ b = '\n') ∧ noNLNL (b :: rest) = true := by
  rw [noNLNL]
  simp [Bool.and_eq_true, not_and, imp_iff_not_or]

theorem noNLNL_tail {a : Char} {l : List Char}
    (h : noNLNL (a :: l) = true) : noNLNL l = true := by
  cases l with
  | nil => rfl
  | cons b rest => exact (noNLNL_cons_cons.mp h).2

theorem noNLNL_of_not_mem {l : List Char} (h : '\n' ∉ l) :
    noNLNL l = true := by
  induction l with
  | nil => rfl
  | cons a rest ih =>
    cases rest with
    | nil => rfl
    | cons b rs =>
      rw [noNLNL_cons_cons]
      refine ⟨fun hc => h (by rw [hc.1]; exact List.mem_cons_self _ _), ?_⟩
      exact ih (fun hm => h (List.mem_cons_of_mem _ hm))

theorem noNLNL_append {a : List Char} {c : Char} {b : List Char}
    (ha : noNLNL a = true) (hcb : noNLNL (c :: b) = true)
    (hj : ∀ x, a.getLast? = some x → ¬(x = '\n' ∧ c = '\n')) :
    noNLNL (a ++ c :: b) = true := by
  induction a with
  | nil => exact hcb
  | cons x xs ih =>
    cases xs with
    | nil =>
      rw [List.singleton_append, noNLNL_cons_cons]
      exact ⟨hj x rfl, hcb⟩
    | cons y ys =>
      rw [List.cons_append, List.cons_append, noNLNL_cons_cons]
      rw [noNLNL_cons_cons] at ha
      refine ⟨ha.1, ?_⟩
      rw [← List.cons_append]
      exact ih ha.2 (fun z hz => hj z (by rw [List.getLast?_cons_cons]; exact hz))

theorem noNLNL_pyJoin :
    ∀ ls : List (List Char), (∀ l ∈ ls, l ≠ [] ∧ '\n' ∉ l) →
      noNLNL (pyJoin ['\n'] ls) = true := by
  intro ls
  induction ls with
  | nil => intro _; rfl
  | cons x rest ih =>
    intro h
    cases rest with
    | nil => exact noNLNL_of_not_mem (h x (List.mem_cons_self _ _)).2
    | cons y ys =>
      rw [pyJoin]
      have hrest : ∀ l ∈ y :: ys, l ≠ [] ∧ '\n' ∉ l :=
        fun l hl => h l (List.mem_cons_of_mem _ hl)
      have hx := h x (List.mem_cons_self _ _)
      rw [List.append_assoc, List.singleton_append]
      refine noNLNL_append (noNLNL_of_not_mem hx.2) ?_ ?_
      · cases hw : pyJoin ['\n'] (y :: ys) with
        | nil => rfl
        | cons w ws =>
          rw [noNLNL_cons_cons]
          constructor
          · rintro ⟨-, hw2⟩
            have hyne := (hrest y (List.mem_cons_self _ _)).1
            have hhead : (pyJoin ['\n'] (y :: ys)).head? = y.head? :=
              pyJoin_head? y ys hyne
            rw [hw] at hhead
            simp at hhead
            have : '\n' ∈ y := by
              rw [hw2] at hhead
              exact List.mem_of_mem_head? (by rw [← hhead]; rfl)
            exact (hrest y (List.mem_cons_self _ _)).2 this
          · rw [← hw]
            exact ih hrest
      · intro z hz hcon
        exact hx.2 (by rw [← hcon.1]; exact mem_of_getLast?_eq hz)

theorem splitBlocksAux_irrel :
    ∀ f1 : Nat, ∀ f2 l acc, l.length < f1 → l.length < f2 →
      splitBlocksAux f1 l acc = splitBlocksAux f2 l acc := by
  intro f1
  induction f1 with
  | zero => intro f2 l acc h1 _; omega
  | succ f1 ih =>
    intro f2 l acc h1 h2
    cases f2 with
    | zero => omega
    | succ f2 =>
      cases l with
      | nil => rfl
      | cons c rest =>
        rw [splitBlocksAux, splitBlocksAux]
        split
        · have hd := List.Sublist.length_le
            (List.dropWhile_sublist (fun x => x = '\n') (l := rest))
          rw [ih f2 _ [] (by simp at h1; omega) (by simp at h2; omega)]
        · rw [ih f2 rest (c :: acc) (by simp at h1; omega) (by simp at h2; omega)]

theorem splitBlocksAux_no_sep :
    ∀ (b : List Char) (f : Nat) (acc : List Char), b.length < f →
      noNLNL b = true → splitBlocksAux f b acc = [acc.reverse ++ b] := by
  intro b
  induction b with
  | nil =>
    intro f acc hf _
    cases f with
    | zero => omega
    | succ f => rw [splitBlocksAux]; simp
  | cons x xs ih =>
    intro f acc hf hnn
    cases f with
    | zero => omega
    | succ f =>
      rw [splitBlocksAux]
      rw [if_neg ?hneg]
      case hneg =>
        rintro ⟨hx, hh⟩
        cases xs with
        | nil => simp at hh
        | cons y ys =>
          simp at hh
          exact (noNLNL_cons_cons.mp hnn).1 ⟨hx, hh⟩
      rw [ih f (x :: acc) (by simp at hf; omega) (noNLNL_tail hnn)]
      simp

theorem dropWhile_nl_eq_self {rest : List Char}
    (hr : rest.head? ≠ some '\n') :
    rest.dropWhile (fun x => x = '\n') = rest := by
  refine dropWhile_eq_self_of_head ?_
  intro c hc
  simp only [decide_eq_false_iff_not]
  intro he
  rw [he] at hc
  exact hr hc

theorem splitBlocksAux_sep (rest : List Char) (hr : rest.head? ≠ some '\n') :
    ∀ (b : List Char) (f : Nat) (acc : List Char),
      b.length + 2 + rest.length < f → noNLNL b = true →
      b.getLast? ≠ some '\n' →
      splitBlocksAux f (b ++ '\n' :: '\n' :: rest) acc =
        (acc.reverse ++ b) :: splitBlocksAux (rest.length + 1) rest [] := by
  intro b
  induction b with
  | nil =>
    intro f acc hf _ _
    cases f with
    | zero => omega
    | succ f =>
      rw [List.nil_append, splitBlocksAux, if_pos (by simp)]
      rw [List.dropWhile_cons, if_pos (by simp), dropWhile_nl_eq_self hr]
      rw [splitBlocksAux_irrel f (rest.length + 1) rest [] (by omega) (by omega)]
      simp
  | cons x xs ih =>
    intro f acc hf hnn hlast
    cases f with
    | zero => omega
    | succ f =>
      rw [List.cons_append, splitBlocksAux]
      rw [if_neg ?hneg2]
      case hneg2 =>
        rintro ⟨hx, hh⟩
        cases xs with
        | nil =>
          simp at hlast
          exact hlast hx
        | cons y ys =>
          simp at hh
          exact (noNLNL_cons_cons.mp hnn).1 ⟨hx, hh⟩
      have hx2 : xs.getLast? ≠ some '\n' := by
        cases xs with
        | nil => simp
        | cons y ys =>
          rw [← List.getLast?_cons_cons (a := x)]
          exact hlast
      rw [ih f (x :: acc) (by simp at hf; omega) (noNLNL_tail hnn) hx2]
      simp

theorem splitBlocks_pyJoin :
    ∀ bls : List (List Char), bls ≠ [] →
      (∀ b ∈ bls, b ≠ [] ∧ noNLNL b = true ∧ b.head? ≠ some '\n' ∧
        b.getLast? ≠ some '\n') →
      splitBlocks (pyJoin ['\n', '\n'] bls) = bls := by
  intro bls
  induction bls with
  | nil => intro h _; exact absurd rfl h
  | cons b rest ih =>
    intro _ hok
    cases rest with
    | nil =>
      rw [pyJoin, splitBlocks]
      rw [splitBlocksAux_no_sep b _ [] (by omega)
        (hok b (List.mem_cons_self _ _)).2.1]
      simp
    | cons b2 bs =>
      rw [pyJoin, splitBlocks]
      have hb := hok b (List.mem_cons_self _ _)
      have hrest : ∀ x ∈ b2 :: bs, x ≠ [] ∧ noNLNL x = true ∧
          x.head? ≠ some '\n' ∧ x.getLast? ≠ some '\n' :=
        fun x hx => hok x (List.mem_cons_of_mem _ hx)
      have hb2 := hrest b2 (List.mem_cons_self _ _)
      have hjh : (pyJoin ['\n', '\n'] (b2 :: bs)).head? = b2.head? :=
        pyJoin_head? b2 bs hb2.1
      rw [List.append_assoc]
      rw [show ['\n', '\n'] ++ pyJoin ['\n', '\n'] (b2 :: bs) =
        '\n' :: '\n' :: pyJoin ['\n', '\n'] (b2 :: bs) from rfl]
      rw [splitBlocksAux_sep _ (by rw [hjh]; exact hb2.2.2.1) b _ []
        (by simp [List.length_append]; omega) hb.2.1 hb.2.2.2]
      rw [show splitBlocksAux ((pyJoin ['\n', '\n'] (b2 :: bs)).length + 1)
        (pyJoin ['\n', '\n'] (b2 :: bs)) [] =
        splitBlocks (pyJoin ['\n', '\n'] (b2 :: bs)) from rfl]
      rw [ih (by simp) hrest]
      simp

/-! ## Line-splitter round trip -/

theorem pySplitChAux_no_sep {sep : Char} :
    ∀ (l acc : List Char), sep ∉ l →
      pySplitChAux sep l acc = [acc.reverse ++ l] := by
  intro l
  induction l with
  | nil => intro acc _; simp [pySplitChAux]
  | cons c cs ih =>
    intro acc h
    rw [pySplitChAux, if_neg (fun he => h (by rw [he]; exact List.mem_cons_self _ _))]
    rw [ih (c :: acc) (fun hm => h (List.mem_cons_of_mem _ hm))]
    simp

theorem pySplitChAux_sep {sep : Char} :
    ∀ (l rest acc : List Char), sep ∉ l →
      pySplitChAux sep (l ++ sep :: rest) acc =
        (acc.reverse ++ l) :: pySplitChAux sep rest [] := by
  intro l
  induction l with
  | nil =>
    intro rest acc _
    rw [List.nil_append, pySplitChAux, if_pos rfl]
    simp
  | cons c cs ih =>
    intro rest acc h
    rw [List.cons_append, pySplitChAux,
      if_neg (fun he => h (by rw [he]; exact List.mem_cons_self _ _))]
    rw [ih rest (c :: acc) (fun hm => h (List.mem_cons_of_mem _ hm))]
    simp

theorem pySplitCh_pyJoin {sep : Char} :
    ∀ lines : List (List Char), lines ≠ [] → (∀ l ∈ lines, sep ∉ l) →
      pySplitCh sep (pyJoin [sep] lines) = lines := by
  intro lines
  induction lines with
  | nil => intro h _; exact absurd rfl h
  | cons x rest ih =>
    intro _ h
    cases rest with
    | nil =>
      rw [pyJoin, pySplitCh, pySplitChAux_no_sep x [] (h x (List.mem_cons_self _ _))]
      simp
    | cons y ys =>
      rw [pyJoin, pySplitCh, List.append_assoc, List.singleton_append,
        pySplitChAux_sep _ _ [] (h x (List.mem_cons_self _ _))]
      rw [show pySplitChAux sep (pyJoin [sep] (y :: ys)) [] =
        pySplitCh sep (pyJoin [sep] (y :: ys)) from rfl]
      rw [ih (by simp) (fun l hl => h l (List.mem_cons_of_mem _ hl))]
      simp

/-! ## Timestamp regex lemmas -/

theorem matchTsOne_render (T : TsData) (hT : TsOk T) (rest : List Char) :
    matchTsOne (renderTs T ++ rest) = some (renderTs T, rest) := by
  obtain ⟨h1, h2, h3, h4, h5, h6, h7, h8, h9⟩ := hT
  rw [renderTs]
  simp only [List.cons_append, List.nil_append]
  rw [matchTsOne]
  rw [if_pos]
  exact ⟨h1, h2, rfl, h3, h4, rfl, h5, h6, rfl, h7, h8, h9⟩

theorem dropWhile_space_render (T : TsData) (hT : TsOk T) :
    (renderTs T).dropWhile isPySpace = renderTs T := by
  refine dropWhile_eq_self_of_head ?_
  intro c hc
  rw [renderTs] at hc
  simp at hc
  rw [← hc]
  exact isPySpace_of_digit hT.1

theorem matchTsOne_render_nil (T : TsData) (hT : TsOk T) :
    matchTsOne (renderTs T) = some (renderTs T, []) := by
  have h := matchTsOne_render T hT []
  rwa [List.append_nil] at h

theorem matchTs_tsLine (T1 T2 : TsData) (h1 : TsOk T1) (h2 : TsOk T2) :
    matchTs (renderTs T1 ++ (' ' :: '-' :: '-' :: '>' :: ' ' :: []) ++
      renderTs T2) = some (renderTs T1, renderTs T2) := by
  rw [List.append_assoc, matchTs, matchTsOne_render T1 h1]
  dsimp only
  rw [show (' ' :: '-' :: '-' :: '>' :: ' ' :: []) ++ renderTs T2 =
    ' ' :: '-' :: '-' :: '>' :: ' ' :: renderTs T2 from rfl]
  rw [List.dropWhile_cons, if_pos (by decide), List.dropWhile_cons,
    if_neg (by decide)]
  show (match matchTsOne (List.dropWhile isPySpace (' ' :: renderTs T2)) with
    | none => none
    | some (g2, _) => some (renderTs T1, g2)) = some (renderTs T1, renderTs T2)
  rw [List.dropWhile_cons, if_pos (by decide), dropWhile_space_render T2 h2]
  rw [matchTsOne_render_nil T2 h2]

/-! ## Block-level facts and the round trip -/

theorem renderTs_no_newline (T : TsData) (hT : TsOk T) : '\n' ∉ renderTs T := by
  obtain ⟨k1, k2, k3, k4, k5, k6, k7, k8, k9⟩ := hT
  intro hm
  rw [renderTs] at hm
  simp at hm
  rcases hm with h | h | h | h | h | h | h | h | h
  · exact absurd k1 (by rw [← h]; decide)
  · exact absurd k2 (by rw [← h]; decide)
  · exact absurd k3 (by rw [← h]; decide)
  · exact absurd k4 (by rw [← h]; decide)
  · exact absurd k5 (by rw [← h]; decide)
  · exact absurd k6 (by rw [← h]; decide)
  · exact absurd k7 (by rw [← h]; decide)
  · exact absurd k8 (by rw [← h]; decide)
  · exact absurd k9 (by rw [← h]; decide)

theorem natRepr_no_newline (n : Nat) : '\n' ∉ natRepr n := by
  intro hm
  have := natRepr_digits n '\n' hm
  exact absurd this (by decide)

theorem tsLineOf_ne_nil (b : SrtBlock) : tsLineOf b ≠ [] := by
  rw [tsLineOf, renderTs]
  simp

theorem tsLineOf_no_newline (b : SrtBlock) (h1 : TsOk b.t1) (h2 : TsOk b.t2) :
    '\n' ∉ tsLineOf b := by
  intro hm
  rw [tsLineOf] at hm
  rcases List.mem_append.mp hm with hm1 | hm1
  · rcases List.mem_append.mp hm1 with hm2 | hm2
    · exact renderTs_no_newline b.t1 h1 hm2
    · simp at hm2
  · exact renderTs_no_newline b.t2 h2 hm1

theorem blockLines_good (b : SrtBlock) (hwf : WfBlock b) :
    ∀ l ∈ blockLines b, l ≠ [] ∧ '\n' ∉ l := by
  intro l hl
  rw [blockLines] at hl
  rcases List.mem_cons.mp hl with h | h
  · rw [h]
    exact ⟨natRepr_ne_nil _, natRepr_no_newline _⟩
  · rcases List.mem_cons.mp h with h2 | h2
    · rw [h2]
      exact ⟨tsLineOf_ne_nil b, tsLineOf_no_newline b hwf.1 hwf.2.1⟩
    · exact hwf.2.2.2.1 l h2

theorem renderBlock_ne_nil (b : SrtBlock) (hwf : WfBlock b) :
    renderBlock b ≠ [] := by
  rw [renderBlock]
  exact pyJoin_ne_nil (by rw [blockLines]; simp)
    (fun l hl => (blockLines_good b hwf l hl).1)

theorem renderBlock_head_digit (b : SrtBlock) :
    ∀ c, (renderBlock b).head? = some c → c.isDigit = true := by
  intro c hc
  rw [renderBlock, blockLines,
    pyJoin_head? (natRepr b.index) _ (natRepr_ne_nil _)] at hc
  exact natRepr_digits b.index c (List.mem_of_mem_head? (by rw [hc]; rfl))

theorem blockLines_getLast? (b : SrtBlock) (hne : b.textLines ≠ []) :
    (blockLines b).getLast? = b.textLines.getLast? := by
  rw [blockLines]
  cases htl : b.textLines with
  | nil => exact absurd htl hne
  | cons t ts =>
    rw [List.getLast?_cons_cons, List.getLast?_cons_cons]

theorem renderBlock_last_nonspace (b : SrtBlock) (hwf : WfBlock b) :
    ∀ c, (renderBlock b).getLast? = some c → isPySpace c = false := by
  intro c hc
  cases hL : b.textLines.getLast? with
  | none =>
    rw [List.getLast?_eq_none_iff] at hL
    exact absurd hL hwf.2.2.1
  | some l =>
    have hlmem : l ∈ b.textLines := mem_of_getLast?_eq hL
    have hlne : l ≠ [] := (hwf.2.2.2.1 l hlmem).1
    have hrg : (renderBlock b).getLast? = l.getLast? := by
      rw [renderBlock]
      refine pyJoin_getLast? (blockLines b) l ?_ ?_
      · rw [blockLines_getLast? b hwf.2.2.1]
        exact hL
      · exact fun x hx => (blockLines_good b hwf x hx).1
    rw [hrg] at hc
    have hk := hwf.2.2.2.2
    simp only [lastCharOk, hL, hc, Bool.not_eq_true'] at hk
    exact hk

theorem renderBlock_head_ne_nl (b : SrtBlock) :
    (renderBlock b).head? ≠ some '\n' := by
  intro hc
  have := renderBlock_head_digit b '\n' hc
  exact absurd this (by decide)

theorem renderBlock_last_ne_nl (b : SrtBlock) (hwf : WfBlock b) :
    (renderBlock b).getLast? ≠ some '\n' := by
  intro hc
  have := renderBlock_last_nonspace b hwf '\n' hc
  exact absurd this (by decide)

theorem renderBlock_noNLNL (b : SrtBlock) (hwf : WfBlock b) :
    noNLNL (renderBlock b) = true := by
  rw [renderBlock]
  exact noNLNL_pyJoin (blockLines b) (blockLines_good b hwf)

/-- Parsing one rendered block recovers its entry. -/
theorem parseBlock_renderBlock (b : SrtBlock) (hwf : WfBlock b) :
    parseBlock (renderBlock b) = some (entryOf b) := by
  have hstrip : pyStrip (renderBlock b) = renderBlock b :=
    pyStrip_eq_self
      (fun c hc => isPySpace_of_digit (renderBlock_head_digit b c hc))
      (renderBlock_last_nonspace b hwf)
  have hsplit : pySplitCh '\n' (renderBlock b) = blockLines b := by
    rw [renderBlock]
    exact pySplitCh_pyJoin (blockLines b) (by rw [blockLines]; simp)
      (fun l hl => (blockLines_good b hwf l hl).2)
  rw [parseBlock, hstrip, hsplit, blockLines]
  dsimp only
  rw [pyInt_natRepr]
  dsimp only
  rw [tsLineOf, matchTs_tsLine b.t1 b.t2 hwf.1 hwf.2.1]
  rfl

theorem intRepr_ofNat (n : Nat) : intRepr (Int.ofNat n) = natRepr n := by
  rw [intRepr]
  rw [if_neg (show ¬ Int.ofNat n < 0 from Int.not_lt.mpr (Int.ofNat_nonneg n))]
  rfl

/-- Formatting the parsed entry reproduces the rendered block. -/
theorem formatEntry_entryOf (b : SrtBlock) (hne : b.textLines ≠ []) :
    formatEntry (entryOf b) = renderBlock b := by
  rw [formatEntry, entryOf]
  dsimp only
  rw [intRepr_ofNat]
  rw [renderBlock, blockLines]
  cases htl : b.textLines with
  | nil => exact absurd htl hne
  | cons t ts =>
    rw [pyJoin, pyJoin, tsLineOf]
    simp [List.append_assoc]

theorem parse_map_renderBlock :
    ∀ bs : List SrtBlock, (∀ b ∈ bs, WfBlock b) →
      (bs.map renderBlock).filterMap parseBlock = bs.map entryOf := by
  intro bs
  induction bs with
  | nil => intro _; rfl
  | cons b rest ih =>
    intro hwf
    rw [List.map_cons, List.filterMap_cons,
      parseBlock_renderBlock b (hwf b (List.mem_cons_self _ _))]
    rw [ih (fun x hx => hwf x (List.mem_cons_of_mem _ hx)), List.map_cons]

theorem format_map_entryOf :
    ∀ bs : List SrtBlock, (∀ b ∈ bs, WfBlock b) →
      (bs.map entryOf).map formatEntry = bs.map renderBlock := by
  intro bs
  induction bs with
  | nil => intro _; rfl
  | cons b rest ih =>
    intro hwf
    rw [List.map_cons, List.map_cons, List.map_cons,
      formatEntry_entryOf b (hwf b (List.mem_cons_self _ _)).2.2.1,
      ih (fun x hx => hwf x (List.mem_cons_of_mem _ hx))]

/-- Claim C8 (amended): `format_srt ∘ parse_srt` reproduces the input plus a
single trailing newline on every SRT text whose blocks are separated by
exactly one blank line and consist of a canonical decimal index line, a
timestamp line `HH:MM:SS,mmm --> HH:MM:SS,mmm` with single spaces, and at
least one text line, the text lines being non-empty, newline-free, and the
last one not ending in whitespace. -/
theorem C8_srt_roundtrip (bs : List SrtBlock) (hne : bs ≠ [])
    (hwf : ∀ b ∈ bs, WfBlock b) :
    format_srt (parse_srt (renderSrt bs)) = renderSrt bs ++ ['\n'] := by
  have hgood : ∀ blk ∈ bs.map renderBlock, blk ≠ [] ∧ noNLNL blk = true ∧
      blk.head? ≠ some '\n' ∧ blk.getLast? ≠ some '\n' := by
    intro blk hblk
    obtain ⟨b, hb, rfl⟩ := List.mem_map.mp hblk
    exact ⟨renderBlock_ne_nil b (hwf b hb), renderBlock_noNLNL b (hwf b hb),
      renderBlock_head_ne_nl b, renderBlock_last_ne_nl b (hwf b hb)⟩
  have hstrip : pyStrip (renderSrt bs) = renderSrt bs := by
    refine pyStrip_eq_self ?_ ?_
    · intro c hc
      cases bs with
      | nil => exact absurd rfl hne
      | cons b0 rest =>
        rw [renderSrt, List.map_cons,
          pyJoin_head? _ _ (renderBlock_ne_nil b0
            (hwf b0 (List.mem_cons_self _ _)))] at hc
        exact isPySpace_of_digit (renderBlock_head_digit b0 c hc)
    · intro c hc
      cases hbl : bs.getLast? with
      | none =>
        rw [List.getLast?_eq_none_iff] at hbl
        exact absurd hbl hne
      | some bl =>
        have hblmem : bl ∈ bs := mem_of_getLast?_eq hbl
        have hrg : (renderSrt bs).getLast? = (renderBlock bl).getLast? := by
          rw [renderSrt]
          refine pyJoin_getLast? _ (renderBlock bl) ?_ ?_
          · rw [List.getLast?_map, hbl]
            rfl
          · intro l hl
            exact (hgood l hl).1
        rw [hrg] at hc
        exact renderBlock_last_nonspace bl (hwf bl hblmem) c hc
  rw [parse_srt, hstrip]
  rw [show renderSrt bs = pyJoin ['\n', '\n'] (bs.map renderBlock) from rfl]
  rw [splitBlocks_pyJoin (bs.map renderBlock) (by
    cases bs with
    | nil => exact absurd rfl hne
    | cons b0 rest => simp) hgood]
  rw [parse_map_renderBlock bs hwf, format_srt, format_map_entryOf bs hwf]

/-- A concrete well-formed block for the C8 witness. -/
def c8Block : SrtBlock :=
  { index := 1
    t1 := ⟨'0', '0', '0', '0', '0', '0', '0', '0', '0'⟩
    t2 := ⟨'0', '0', '0', '0', '0', '1', '5', '0', '0'⟩
    textLines := [['H', 'i'], ['y', 'o', 'u']] }

/-- Witness: the amended C8 round trip on a concrete one-block SRT text. -/
theorem C8_srt_roundtrip_witness :
    format_srt (parse_srt (renderSrt [c8Block])) =
      renderSrt [c8Block] ++ ['\n'] :=
  C8_srt_roundtrip [c8Block] (by decide) (by decide)

end RLMTrans
